import Mathlib

/-!
# libnet reactor core: Channel, EPoller and TimerQueue

A shallow embedding of `src/Channel.h`, `src/Channel.cc`, `src/EPoller.cc` and
`src/TimerQueue.h`.

* `uint32_t` masks are natural numbers below `2 ^ 32`; the only operation that
  can leave that range, the complement `~x`, is taken modulo `2 ^ 32`.
* A `Channel*` is an address (`ChannelPtr`); the objects live in a `Heap`.
* System calls (`epoll_wait`, `epoll_ctl`, `epoll_create1`) are answered by the
  environment: their results are inputs of the functions that issue them.
* Calls that leave these files (`loop_->updateChannel(this)`,
  `loop_->removeChannel(this)`, `SYSERR(...)`) are recorded in the result.
* A `Timestamp` is a count of clock ticks, and a difference of two of them is
  taken in 64 bits; a `std::set` is the list of its elements in increasing order.
-/

namespace net

/-! ## Constants of `<sys/epoll.h>` and `<errno.h>` (Linux ABI) -/

def EPOLLIN : Nat := 0x001
def EPOLLPRI : Nat := 0x002
def EPOLLOUT : Nat := 0x004
def EPOLLERR : Nat := 0x008
def EPOLLHUP : Nat := 0x010
def EPOLLRDHUP : Nat := 0x2000

def EPOLL_CTL_ADD : Int := 1
def EPOLL_CTL_DEL : Int := 2
def EPOLL_CTL_MOD : Int := 3

def EINTR : Int := 4

/-- The number of values of a `uint32_t`. -/
def UINT32_SIZE : Nat := 2 ^ 32

/-- Bitwise complement `~x` as a `uint32_t`. -/
def not32 (x : Nat) : Nat := (UINT32_SIZE - 1) - x % UINT32_SIZE

/-- The value `static_cast<int>(n)` of a `size_t` on a platform with a 32 bit
two's complement `int`. -/
def toInt32 (n : Nat) : Int :=
  if n % 2 ^ 32 < 2 ^ 31 then ((n % 2 ^ 32 : Nat) : Int) else ((n % 2 ^ 32 : Nat) : Int) - 2 ^ 32

/-- The values an `int` can hold. -/
def isInt32 (n : Int) : Prop := -(2 ^ 31) ≤ n ∧ n < 2 ^ 31

instance (n : Int) : Decidable (isInt32 n) := by
  unfold isInt32; exact inferInstance

deriving instance DecidableEq for Except

/-! ## Channel -/

/-- A `std::function<void()>` handler. It takes no argument and returns nothing:
the dispatcher sees of a call only whether it returns or raises, so that is what a
handler is here. A handler that re-enters the channel it is installed on while
that channel is being dispatched is outside this model. -/
structure Callback where
  throws : Bool
deriving DecidableEq, Repr

/-- The four handler slots of a `Channel`. -/
inductive CallbackKind where
  | close
  | error
  | read
  | write
deriving DecidableEq, Repr

/-- The address of an owner object held by a `shared_ptr<void>`. -/
abbrev OwnerPtr := Nat

/-- The address of a `Channel`. -/
abbrev ChannelPtr := Nat

/-- The members of `class Channel` (the `loop_` pointer apart: the loop is reached
only through the recorded requests). `tie_` is the `weak_ptr`: `none` when empty,
`some o` when it refers to the owner `o`. -/
structure Channel where
  polling_ : Bool
  tied_ : Bool
  handlingEvents_ : Bool
  fd_ : Int
  events_ : Nat
  revents_ : Nat
  tie_ : Option OwnerPtr
  readCallback_ : Option Callback
  writeCallback_ : Option Callback
  closeCallback_ : Option Callback
  errorCallback_ : Option Callback
deriving DecidableEq, Repr

/-- A call made on the `EventLoop` collaborator, with the state of the channel
passed as `this`. -/
inductive LoopRequest where
  | updateChannel (channel : Channel)
  | removeChannel (channel : Channel)
deriving DecidableEq, Repr

/-- A fatal contract violation: a failed `assert`. -/
inductive Violation where
  | notInLoopThread
  | assertion (expr : String)
deriving DecidableEq, Repr

namespace Channel

/-- The constructor `Channel::Channel(loop, fd)`. -/
def new (fd : Int) : Channel :=
  { polling_ := false
    tied_ := false
    handlingEvents_ := false
    fd_ := fd
    events_ := 0
    revents_ := 0
    tie_ := none
    readCallback_ := none
    writeCallback_ := none
    closeCallback_ := none
    errorCallback_ := none }

def setReadCallback (c : Channel) (cb : Option Callback) : Channel := { c with readCallback_ := cb }
def setWriteCallback (c : Channel) (cb : Option Callback) : Channel := { c with writeCallback_ := cb }
def setCloseCallback (c : Channel) (cb : Option Callback) : Channel := { c with closeCallback_ := cb }
def setErrorCallback (c : Channel) (cb : Option Callback) : Channel := { c with errorCallback_ := cb }

def setRevents (c : Channel) (revents : Nat) : Channel := { c with revents_ := revents }
def setPollingState (c : Channel) (state : Bool) : Channel := { c with polling_ := state }

def fd (c : Channel) : Int := c.fd_
def events (c : Channel) : Nat := c.events_
def polling (c : Channel) : Bool := c.polling_
def isNoneEvents (c : Channel) : Bool := c.events_ == 0
def isReading (c : Channel) : Bool := c.events_ &&& EPOLLIN != 0
def isWriting (c : Channel) : Bool := c.events_ &&& EPOLLOUT != 0

/-- The private `Channel::update`: `loop_->updateChannel(this)`. -/
def update (c : Channel) : Channel × List LoopRequest :=
  (c, [LoopRequest.updateChannel c])

def enableRead (c : Channel) : Channel × List LoopRequest :=
  update { c with events_ := c.events_ ||| (EPOLLIN ||| EPOLLPRI) }

def enableWrite (c : Channel) : Channel × List LoopRequest :=
  update { c with events_ := c.events_ ||| EPOLLOUT }

def disableRead (c : Channel) : Channel × List LoopRequest :=
  update { c with events_ := c.events_ &&& not32 EPOLLIN }

def disableWrite (c : Channel) : Channel × List LoopRequest :=
  update { c with events_ := c.events_ &&& not32 EPOLLOUT }

def disableAll (c : Channel) : Channel × List LoopRequest :=
  update { c with events_ := 0 }

/-- The method `Channel::remove`: `assert(polling_); loop_->removeChannel(this);`. -/
def remove (c : Channel) : Except Violation (Channel × List LoopRequest) :=
  if c.polling_ then .ok (c, [LoopRequest.removeChannel c])
  else .error (Violation.assertion "polling_")

/-- The method `Channel::tie`: `tie_ = obj; tied_ = true;`. A null `shared_ptr` is `none`. -/
def tie (c : Channel) (obj : Option OwnerPtr) : Channel :=
  { c with tie_ := obj, tied_ := true }

end Channel

/-- The call `weak_ptr::lock`: the owner when it is still alive, otherwise null. -/
def weakLock (alive : OwnerPtr → Bool) (w : Option OwnerPtr) : Option OwnerPtr :=
  match w with
  | none => none
  | some o => if alive o then some o else none

/-- How a call of `handleEvents` ends. -/
inductive Exit where
  | returned
  | aborted (v : Violation)
  | threw (k : CallbackKind)
deriving DecidableEq, Repr

/-- The observable effect of a dispatch: the channel afterwards, the handlers
invoked so far in order of invocation, and how control left. -/
structure Dispatch where
  channel : Channel
  invoked : List CallbackKind
  exit : Exit
deriving DecidableEq, Repr

/-- The statement `if (cb) cb();` at slot `k`. Nothing runs once a handler has
raised: the exception leaves `handleEventsWithGuard`, which has no handler for it. -/
def callIfSet (k : CallbackKind) (cb : Option Callback) (d : Dispatch) : Dispatch :=
  match d.exit with
  | Exit.returned =>
    match cb with
    | none => d
    | some f =>
      { d with invoked := d.invoked ++ [k]
               exit := if f.throws then Exit.threw k else Exit.returned }
  | _ => d

namespace Channel

/-- The private `Channel::handleEventsWithGuard`. -/
def handleEventsWithGuard (c : Channel) : Dispatch :=
  let d0 : Dispatch :=
    { channel := { c with handlingEvents_ := true }, invoked := [], exit := Exit.returned }
  let d1 :=
    if (d0.channel.revents_ &&& EPOLLHUP != 0) && !(d0.channel.revents_ &&& EPOLLIN != 0) then
      callIfSet CallbackKind.close d0.channel.closeCallback_ d0
    else d0
  let d2 :=
    if d1.channel.revents_ &&& EPOLLERR != 0 then
      callIfSet CallbackKind.error d1.channel.errorCallback_ d1
    else d1
  let d3 :=
    if d2.channel.revents_ &&& (EPOLLIN ||| EPOLLPRI ||| EPOLLRDHUP) != 0 then
      callIfSet CallbackKind.read d2.channel.readCallback_ d2
    else d2
  let d4 :=
    if d3.channel.revents_ &&& EPOLLOUT != 0 then
      callIfSet CallbackKind.write d3.channel.writeCallback_ d3
    else d3
  match d4.exit with
  | Exit.returned => { d4 with channel := { d4.channel with handlingEvents_ := false } }
  | _ => d4

/-- The method `Channel::handleEvents`. `inLoopThread` is the outcome of
`loop_->assertInLoopThread()`, `alive` tells which owners still exist. -/
def handleEvents (c : Channel) (inLoopThread : Bool) (alive : OwnerPtr → Bool) : Dispatch :=
  if !inLoopThread then
    { channel := c, invoked := [], exit := Exit.aborted Violation.notInLoopThread }
  else if c.tied_ then
    match weakLock alive c.tie_ with
    | some _ => handleEventsWithGuard c
    | none => { channel := c, invoked := [], exit := Exit.returned }
  else
    handleEventsWithGuard c

end Channel

/-! ## EPoller -/

/-- One `struct epoll_event`: the readiness mask and the back-pointer `data.ptr`. -/
structure EpollEvent where
  events : Nat
  ptr : ChannelPtr
deriving DecidableEq, Repr, Inhabited

/-- The memory holding the `Channel` objects, by address. -/
abbrev Heap := ChannelPtr → Channel

/-- The members of `class EPoller` (the `loop_` pointer apart). -/
structure EPoller where
  epollfd_ : Int
  events_ : List EpollEvent
deriving DecidableEq, Repr

/-- The answer of the kernel to one `epoll_wait`: either `-1` with an `errno`, or
the list of entries it stored at the front of the buffer, whose length it returns. -/
inductive WaitResult where
  | failed (errno : Int)
  | ready (entries : List EpollEvent)
deriving DecidableEq, Repr

/-- The value returned by `epoll_wait`. -/
def WaitResult.ret : WaitResult → Int
  | WaitResult.failed _ => -1
  | WaitResult.ready entries => (entries.length : Int)

/-- The value of `errno` read after a failed `epoll_wait`. -/
def WaitResult.errno : WaitResult → Int
  | WaitResult.failed errno => errno
  | WaitResult.ready _ => 0

/-- The buffer after the kernel has stored `entries` from index 0 on; its size
does not change. -/
def storeFront (buf entries : List EpollEvent) : List EpollEvent :=
  (entries ++ buf.drop entries.length).take buf.length

/-- The buffer `events_.data()` when `epoll_wait` has returned. -/
def WaitResult.store (w : WaitResult) (buf : List EpollEvent) : List EpollEvent :=
  match w with
  | WaitResult.failed _ => buf
  | WaitResult.ready entries => storeFront buf entries

/-- One `epoll_ctl` call: the arguments passed to the kernel. -/
structure CtlCall where
  epfd : Int
  op : Int
  fd : Int
  event : EpollEvent
deriving DecidableEq, Repr

/-- What `EPoller::updateChannel` leaves behind: the channel, the `epoll_ctl`
issued and the `SYSERR` reports made. -/
structure UpdateResult where
  channel : Channel
  ctl : CtlCall
  reports : List String
deriving DecidableEq, Repr

/-- What `EPoller::poll` leaves behind: the poller, the heap of channels, the
caller's `activeChannels` and the `SYSERR` reports made. -/
structure PollResult where
  poller : EPoller
  heap : Heap
  activeChannels : List ChannelPtr
  reports : List String

namespace EPoller

/-- The constructor `EPoller::EPoller(loop)`; `epfd` is what `epoll_create1` returned. -/
def new (epfd : Int) : Except Violation EPoller :=
  if epfd > 0 then
    .ok { epollfd_ := epfd, events_ := List.replicate 1024 default }
  else
    .error (Violation.assertion "epollfd_ >0")

/-- The body of the loop `for (int i = 0; i < nEvents; ++i)` of `EPoller::poll`. -/
def pollStep (events : List EpollEvent) (st : Heap × List ChannelPtr) (i : Nat) :
    Heap × List ChannelPtr :=
  let channel := (events.getD i default).ptr
  (Function.update st.1 channel ((st.1 channel).setRevents (events.getD i default).events),
   st.2 ++ [channel])

/-- The method `EPoller::poll`. `inLoopThread` is the outcome of
`loop_->assertInLoopThread()`, `w` the answer of the kernel to `epoll_wait`. -/
def poll (self : EPoller) (inLoopThread : Bool) (w : WaitResult) (heap : Heap)
    (activeChannels : List ChannelPtr) : Except Violation PollResult :=
  if !inLoopThread then .error Violation.notInLoopThread
  else
    let maxEvents : Int := toInt32 self.events_.length
    let nEvents : Int := w.ret
    let events := w.store self.events_
    if nEvents == -1 then
      .ok { poller := { self with events_ := events }
            heap := heap
            activeChannels := activeChannels
            reports := if w.errno != EINTR then ["EPoller::epoll_wait()"] else [] }
    else if nEvents > 0 then
      let st := (List.range nEvents.toNat).foldl (pollStep events) (heap, activeChannels)
      let events :=
        if nEvents == maxEvents then
          events ++ List.replicate (2 * events.length - events.length) default
        else events
      .ok { poller := { self with events_ := events }
            heap := st.1
            activeChannels := st.2
            reports := [] }
    else
      .ok { poller := { self with events_ := events }
            heap := heap
            activeChannels := activeChannels
            reports := [] }

/-- The private overload `EPoller::updateChannel(int op, Channel* channel)`;
`ctlRet` is what `epoll_ctl` returned. -/
def updateChannelOp (self : EPoller) (op : Int) (ctlRet : Int) (p : ChannelPtr) (c : Channel) :
    UpdateResult :=
  { channel := c
    ctl := { epfd := self.epollfd_, op := op, fd := c.fd, event := { events := c.events, ptr := p } }
    reports := if ctlRet == -1 then ["EPoller::epoll_ctl()"] else [] }

/-- The method `EPoller::updateChannel(Channel* channel)` on the channel `c` at address `p`. -/
def updateChannel (self : EPoller) (inLoopThread : Bool) (ctlRet : Int) (p : ChannelPtr)
    (c : Channel) : Except Violation UpdateResult :=
  if !inLoopThread then .error Violation.notInLoopThread
  else if !c.polling then
    if c.isNoneEvents then .error (Violation.assertion "!channel->isNoneEvents()")
    else .ok (self.updateChannelOp EPOLL_CTL_ADD ctlRet p (c.setPollingState true))
  else if !c.isNoneEvents then
    .ok (self.updateChannelOp EPOLL_CTL_MOD ctlRet p c)
  else
    .ok (self.updateChannelOp EPOLL_CTL_DEL ctlRet p (c.setPollingState false))

end EPoller

/-! ## TimerQueue -/

/-- The address of a `Timer`: the identity of a timer. -/
abbrev TimerPtr := Nat

/-- A `Timestamp`: a time point of the clock, as its count of clock ticks.
`Timestamp.h` is not among the sources, so the number of ticks in a millisecond is
a parameter wherever a duration is converted. -/
abbrev Timestamp := Int

/-- The pair `Entry = std::pair<Timestamp, Timer*>`. -/
abbrev Entry := Timestamp × TimerPtr

/-- The order `operator<` of `std::pair`: by timestamp, then by address. -/
def Entry.lt (a b : Entry) : Prop := a.1 < b.1 ∨ (a.1 = b.1 ∧ a.2 < b.2)

instance (a b : Entry) : Decidable (Entry.lt a b) := by
  unfold Entry.lt; exact inferInstance

/-- The container `TimerList = std::set<Entry>`: its elements in the order in
which iteration from `begin()` yields them. -/
abbrev TimerList := List Entry

/-- The representation invariant of a `std::set`: strictly increasing, so without
duplicates. -/
def TimerList.Ordered (l : TimerList) : Prop := l.Pairwise Entry.lt

instance (l : TimerList) : Decidable (TimerList.Ordered l) := by
  unfold TimerList.Ordered; exact inferInstance

/-- The call `std::set::insert`: `e` goes to its place in the order, unless an
equal element is there already. -/
def TimerList.insert (e : Entry) : TimerList → TimerList
  | [] => [e]
  | x :: xs =>
    if Entry.lt e x then e :: x :: xs
    else if e = x then x :: xs
    else x :: TimerList.insert e xs

/-- The members of `class TimerQueue` (the `loop_` pointer apart). -/
structure TimerQueue where
  timerfd_ : Int
  timerChannel_ : Channel
  timers_ : TimerList
deriving DecidableEq, Repr

/-- The value `std::chrono::duration_cast<Millisecond>(interval).count()` for an
interval of `ticks` clock ticks, `ticksPerMs` of which make a millisecond: the
integer division of C++. -/
def toMillisecondCount (ticksPerMs : Nat) (ticks : Int) : Int :=
  Int.tdiv ticks (ticksPerMs : Int)

/-- The values a signed 64 bit tick count can hold. -/
def isInt64 (n : Int) : Prop := -(2 ^ 63) ≤ n ∧ n < 2 ^ 63

instance (n : Int) : Decidable (isInt64 n) := by
  unfold isInt64; exact inferInstance

/-- The signed 64 bit value that stands for `n`: `n` itself when it fits, and `n`
brought back into the range by a multiple of `2 ^ 64` when it does not. -/
def wrapInt64 (n : Int) : Int := (n + 2 ^ 63) % 2 ^ 64 - 2 ^ 63

namespace TimerQueue

/-- The method `TimerQueue::nextTimeout`; `now` is what `clock::now()` returned.
The difference `timers_.begin()->first - clock::now()` is a subtraction of 64 bit
tick counts, which wraps around when the result leaves the range. -/
def nextTimeout (self : TimerQueue) (ticksPerMs : Nat) (now : Timestamp) : Int :=
  match self.timers_ with
  | [] => 0
  | first :: _ => toMillisecondCount ticksPerMs (wrapInt64 (first.1 - now))

end TimerQueue

/-- Modelled from the spec: the body of `TimerQueue::getExpired`, which
`TimerQueue.h` declares and `TimerQueue.cc` (not among the sources) defines.
"Repeatedly remove the earliest entry from the ordered collection while its
timestamp is ≤ now, collecting them into an expired batch." The result is the
batch and the collection that is left. -/
def getExpiredFrom (now : Timestamp) : TimerList → List Entry × TimerList
  | [] => ([], [])
  | e :: rest =>
    if e.1 ≤ now then
      ((e :: (getExpiredFrom now rest).1), (getExpiredFrom now rest).2)
    else ([], e :: rest)

/-- Modelled from the spec: `TimerQueue::getExpired(now)` (defined in
`TimerQueue.cc`, not among the sources): the expired batch it returns and the
queue with the live collection it leaves. -/
def TimerQueue.getExpired (self : TimerQueue) (now : Timestamp) : List Entry × TimerQueue :=
  ((getExpiredFrom now self.timers_).1,
   { self with timers_ := (getExpiredFrom now self.timers_).2 })

/-- The collection that holds the timers scheduled by inserting `added` one after
the other into an empty `std::set`. -/
def TimerList.ofAdded (added : List Entry) : TimerList :=
  added.foldl (fun l e => TimerList.insert e l) []

/-! ## Notions used to state the properties -/

/-- The flag `flag` (a power of two) is set in `mask`: the binary digit of `mask`
of weight `flag` is one. -/
def flagSet (mask flag : Nat) : Bool := decide (mask / flag % 2 = 1)

/-- The handler installed at a slot. -/
def Channel.callback (c : Channel) : CallbackKind → Option Callback
  | CallbackKind.close => c.closeCallback_
  | CallbackKind.error => c.errorCallback_
  | CallbackKind.read => c.readCallback_
  | CallbackKind.write => c.writeCallback_

/-- The readiness condition under which the dispatch algorithm fires a slot:
hang-up without readable data, error, readable or priority or peer half-close,
writable. -/
def fires (revents : Nat) : CallbackKind → Bool
  | CallbackKind.close => flagSet revents EPOLLHUP && !flagSet revents EPOLLIN
  | CallbackKind.error => flagSet revents EPOLLERR
  | CallbackKind.read =>
    flagSet revents EPOLLIN || flagSet revents EPOLLPRI || flagSet revents EPOLLRDHUP
  | CallbackKind.write => flagSet revents EPOLLOUT

/-- The handlers a dispatch is to invoke, in order: the slots of
`[close, error, read, write]` whose condition holds and that have a handler. -/
def expectedCalls (c : Channel) : List CallbackKind :=
  [CallbackKind.close, CallbackKind.error, CallbackKind.read, CallbackKind.write].filter
    (fun k => fires c.revents_ k && (c.callback k).isSome)

/-- Dispatch is not skipped: the channel is untied, or tied to an owner that is alive. -/
def dispatchProceeds (c : Channel) (alive : OwnerPtr → Bool) : Bool :=
  !c.tied_ || (weakLock alive c.tie_).isSome

/-- A run of `poll` calls on the loop thread, each with its own kernel answer,
heap and caller-supplied list; the poller is what the calls share. -/
def pollRun (self : EPoller) :
    List (WaitResult × Heap × List ChannelPtr) → Except Violation EPoller
  | [] => .ok self
  | call :: rest =>
    match self.poll true call.1 call.2.1 call.2.2 with
    | .ok r => pollRun r.poller rest
    | .error v => .error v

/-- The mask of the last entry of `entries` whose back-pointer is `p`, if any. -/
def lastMask (entries : List EpollEvent) (p : ChannelPtr) : Option Nat :=
  (entries.reverse.find? (fun e => e.ptr == p)).map EpollEvent.events

/-- The heap after the readiness masks of `entries` have been recorded. -/
def recordMasks (heap : Heap) (entries : List EpollEvent) : Heap :=
  fun p =>
    match lastMask entries p with
    | some m => (heap p).setRevents m
    | none => heap p

/-- The handler at slot `k` of `c` raises when called. -/
def Channel.raises (c : Channel) (k : CallbackKind) : Bool :=
  match c.callback k with
  | some f => f.throws
  | none => false

/-- The calls made when the slots `ks` are called in order and an exception ends
the dispatch: everything up to and including the first handler that raises. -/
def callsUntilThrow (c : Channel) : List CallbackKind → List CallbackKind
  | [] => []
  | k :: ks => if c.raises k then [k] else k :: callsUntilThrow c ks

/-- How a dispatch that calls the slots `ks` in order ends. -/
def exitAfter (c : Channel) : List CallbackKind → Exit
  | [] => Exit.returned
  | k :: ks => if c.raises k then Exit.threw k else exitAfter c ks

/-- One of the four `if` statements of `handleEventsWithGuard`, for slot `k`. -/
def dispatchStep (d : Dispatch) (k : CallbackKind) : Dispatch :=
  if fires d.channel.revents_ k then callIfSet k (d.channel.callback k) d else d

/-- The state in which `handleEventsWithGuard` reaches its first test. -/
def dispatchStart (c : Channel) : Dispatch :=
  { channel := { c with handlingEvents_ := true }, invoked := [], exit := Exit.returned }

/-- The effect of one iteration of the loop of `poll` with the entry `e` at hand:
record its mask on the channel it names, then append that channel. -/
def pollEntry (st : Heap × List ChannelPtr) (e : EpollEvent) : Heap × List ChannelPtr :=
  (Function.update st.1 e.ptr ((st.1 e.ptr).setRevents e.events), st.2 ++ [e.ptr])

/-- The channel `c2` differs from `c1` in nothing but the interest mask: the
readiness mask, the callbacks, the flags, the descriptor and the tie are the same. -/
def sameButEvents (c1 c2 : Channel) : Prop :=
  c2 = { c1 with events_ := c2.events_ }

instance (c1 c2 : Channel) : Decidable (sameButEvents c1 c2) := by
  unfold sameButEvents; exact inferInstance

/-- The smallest expiry timestamp present in a collection, whatever the order of
its elements; `none` when it is empty. -/
def minTimestamp : TimerList → Option Timestamp
  | [] => none
  | e :: rest => some (rest.foldl (fun m x => min m x.1) e.1)

/-- A duration of `ticks` clock ticks in whole milliseconds, rounded toward zero:
the whole milliseconds in its magnitude, with its sign. -/
def truncTowardZero (ticksPerMs : Nat) (ticks : Int) : Int :=
  if 0 ≤ ticks then ((ticks.toNat / ticksPerMs : Nat) : Int)
  else -(((-ticks).toNat / ticksPerMs : Nat) : Int)

/-- The five interest operations of a `Channel`. -/
inductive InterestOp where
  | enableRead
  | enableWrite
  | disableRead
  | disableWrite
  | disableAll
deriving DecidableEq, Repr

/-- The member function an `InterestOp` names. -/
def InterestOp.apply : InterestOp → Channel → Channel × List LoopRequest
  | InterestOp.enableRead => Channel.enableRead
  | InterestOp.enableWrite => Channel.enableWrite
  | InterestOp.disableRead => Channel.disableRead
  | InterestOp.disableWrite => Channel.disableWrite
  | InterestOp.disableAll => Channel.disableAll

/-- One call of an interest operation, with what the environment answers while it
runs: the outcome of `assertInLoopThread()` and the return value of `epoll_ctl`. -/
structure InterestCall where
  op : InterestOp
  inLoopThread : Bool
  ctlRet : Int
deriving DecidableEq, Repr

/-- The assumption on the loop: each `updateChannel` request it receives is
forwarded to `EPoller::updateChannel`, for the channel at address `p`. On
`removeChannel` the poller is not entered (`EPoller` has no such entry point). -/
def forwardUpdates (poller : EPoller) (inLoopThread : Bool) (ctlRet : Int) (p : ChannelPtr) :
    List LoopRequest → Channel → Except Violation Channel
  | [], c => .ok c
  | LoopRequest.updateChannel ch :: rest, _ =>
    match poller.updateChannel inLoopThread ctlRet p ch with
    | .ok r => forwardUpdates poller inLoopThread ctlRet p rest r.channel
    | .error v => .error v
  | LoopRequest.removeChannel _ :: rest, c => forwardUpdates poller inLoopThread ctlRet p rest c

/-- One interest operation on the channel at address `p`, its synchronization
request served by the poller. -/
def callOp (poller : EPoller) (p : ChannelPtr) (c : Channel) (call : InterestCall) :
    Except Violation Channel :=
  forwardUpdates poller call.inLoopThread call.ctlRet p (call.op.apply c).2 (call.op.apply c).1

/-- A sequence of interest operations on one channel: the state of the channel
after each call, or the violation at which the sequence stops. -/
def runCalls (poller : EPoller) (p : ChannelPtr) (c : Channel) :
    List InterestCall → Except Violation (List Channel)
  | [] => .ok []
  | call :: rest =>
    match callOp poller p c call with
    | .error v => .error v
    | .ok c1 =>
      match runCalls poller p c1 rest with
      | .error v => .error v
      | .ok cs => .ok (c1 :: cs)

/-- The sequence `disableAll(); remove();` on the channel at address `p`. -/
def disableAllThenRemove (poller : EPoller) (inLoopThread : Bool) (ctlRet : Int)
    (p : ChannelPtr) (c : Channel) : Except Violation (Channel × List LoopRequest) :=
  match callOp poller p c (InterestCall.mk InterestOp.disableAll inLoopThread ctlRet) with
  | .error v => .error v
  | .ok c1 => c1.remove

/-! ## Bit tests -/

theorem and_two_pow_ne_zero (r i : Nat) : (r &&& 2 ^ i != 0) = r.testBit i := by
  cases hb : r.testBit i
  · have h0 : r &&& 2 ^ i = 0 := by
      apply Nat.eq_of_testBit_eq
      intro j
      simp only [Nat.testBit_and, Nat.testBit_two_pow, Nat.zero_testBit]
      by_cases hij : i = j
      · subst hij; simp [hb]
      · simp [hij]
    simp [h0]
  · have hne : r &&& 2 ^ i ≠ 0 := by
      intro h0
      have hbit := congrArg (fun x => Nat.testBit x i) h0
      simp [Nat.testBit_two_pow, hb] at hbit
    simpa using hne

theorem flagSet_two_pow (r i : Nat) : flagSet r (2 ^ i) = r.testBit i := by
  unfold flagSet
  rw [Nat.testBit_to_div_mod]

theorem test_flag (r i : Nat) : (r &&& 2 ^ i != 0) = flagSet r (2 ^ i) := by
  rw [and_two_pow_ne_zero, flagSet_two_pow]

theorem test_EPOLLIN (r : Nat) : (r &&& EPOLLIN != 0) = flagSet r EPOLLIN := test_flag r 0
theorem test_EPOLLOUT (r : Nat) : (r &&& EPOLLOUT != 0) = flagSet r EPOLLOUT := test_flag r 2
theorem test_EPOLLERR (r : Nat) : (r &&& EPOLLERR != 0) = flagSet r EPOLLERR := test_flag r 3
theorem test_EPOLLHUP (r : Nat) : (r &&& EPOLLHUP != 0) = flagSet r EPOLLHUP := test_flag r 4

theorem test_readable (r : Nat) :
    (r &&& (EPOLLIN ||| EPOLLPRI ||| EPOLLRDHUP) != 0)
      = (flagSet r EPOLLIN || flagSet r EPOLLPRI || flagSet r EPOLLRDHUP) := by
  have hin : EPOLLIN = 2 ^ 0 := rfl
  have hpri : EPOLLPRI = 2 ^ 1 := rfl
  have hrd : EPOLLRDHUP = 2 ^ 13 := rfl
  rw [hin, hpri, hrd, flagSet_two_pow, flagSet_two_pow, flagSet_two_pow]
  cases hall : (r.testBit 0 || r.testBit 1 || r.testBit 13)
  · simp only [Bool.or_eq_false_iff] at hall
    have h0 : r &&& (2 ^ 0 ||| 2 ^ 1 ||| 2 ^ 13) = 0 := by
      apply Nat.eq_of_testBit_eq
      intro j
      simp only [Nat.testBit_and, Nat.testBit_or, Nat.testBit_two_pow, Nat.zero_testBit]
      by_cases h0 : 0 = j
      · subst h0; simp [hall.1.1]
      · by_cases h1 : 1 = j
        · subst h1; simp [hall.1.2]
        · by_cases h13 : 13 = j
          · subst h13; simp [hall.2]
          · simp [h0, h1, h13]
    rw [h0]; rfl
  · have hne : r &&& (2 ^ 0 ||| 2 ^ 1 ||| 2 ^ 13) ≠ 0 := by
      intro h0
      have e0 := congrArg (fun x => Nat.testBit x 0) h0
      have e1 := congrArg (fun x => Nat.testBit x 1) h0
      have e13 := congrArg (fun x => Nat.testBit x 13) h0
      simp only [Nat.testBit_and, Nat.testBit_or, Nat.testBit_two_pow, Nat.zero_testBit,
        decide_True, decide_False, Bool.or_false, Bool.false_or, Bool.and_true, Nat.reduceEqDiff,
        OfNat.zero_ne_ofNat, OfNat.ofNat_ne_zero, Nat.succ_ne_self] at e0 e1 e13
      have e1 : r.testBit 1 = false := by simpa using e1
      have e13 : r.testBit 13 = false := by simpa using e13
      simp [e0, e1, e13] at hall
    cases hx : (r &&& (2 ^ 0 ||| 2 ^ 1 ||| 2 ^ 13) != 0)
    · exact absurd (by simpa using hx) hne
    · rfl

/-! ## Dispatch -/

theorem callIfSet_channel (k : CallbackKind) (cb : Option Callback) (d : Dispatch) :
    (callIfSet k cb d).channel = d.channel := by
  unfold callIfSet
  cases d.exit <;> cases cb <;> rfl

theorem dispatchStep_of_not_returned (d : Dispatch) (k : CallbackKind)
    (h : d.exit ≠ Exit.returned) : dispatchStep d k = d := by
  unfold dispatchStep callIfSet
  cases hx : d.exit with
  | returned => exact absurd hx h
  | aborted v => simp
  | threw j => simp

theorem foldl_dispatchStep_of_not_returned (ks : List CallbackKind) (d : Dispatch)
    (h : d.exit ≠ Exit.returned) : ks.foldl dispatchStep d = d := by
  induction ks with
  | nil => rfl
  | cons k ks ih => rw [List.foldl_cons, dispatchStep_of_not_returned d k h, ih]

theorem foldl_dispatchStep (ks : List CallbackKind) (d : Dispatch) (h : d.exit = Exit.returned) :
    (ks.foldl dispatchStep d).channel = d.channel ∧
    (ks.foldl dispatchStep d).invoked = d.invoked ++ callsUntilThrow d.channel
      (ks.filter (fun k => fires d.channel.revents_ k && (d.channel.callback k).isSome)) ∧
    (ks.foldl dispatchStep d).exit = exitAfter d.channel
      (ks.filter (fun k => fires d.channel.revents_ k && (d.channel.callback k).isSome)) := by
  induction ks generalizing d with
  | nil => simp [callsUntilThrow, exitAfter, h]
  | cons k ks ih =>
    rw [List.foldl_cons]
    cases hf : fires d.channel.revents_ k
    · have hstep : dispatchStep d k = d := by simp [dispatchStep, hf]
      rw [hstep]
      simpa [hf] using ih d h
    · cases hcb : d.channel.callback k with
      | none =>
        have hstep : dispatchStep d k = d := by simp [dispatchStep, hf, hcb, callIfSet, h]
        rw [hstep]
        simpa [hf, hcb] using ih d h
      | some f =>
        cases ht : f.throws
        · have hstep : dispatchStep d k
              = { d with invoked := d.invoked ++ [k], exit := Exit.returned } := by
            simp [dispatchStep, hf, hcb, callIfSet, h, ht]
          rw [hstep]
          have hr : d.channel.raises k = false := by simp [Channel.raises, hcb, ht]
          have := ih { d with invoked := d.invoked ++ [k], exit := Exit.returned } rfl
          simpa [hf, hcb, callsUntilThrow, exitAfter, hr] using this
        · have hstep : dispatchStep d k
              = { d with invoked := d.invoked ++ [k], exit := Exit.threw k } := by
            simp [dispatchStep, hf, hcb, callIfSet, h, ht]
          rw [hstep, foldl_dispatchStep_of_not_returned _ _ (by simp)]
          have hr : d.channel.raises k = true := by simp [Channel.raises, hcb, ht]
          simp [hf, hcb, callsUntilThrow, exitAfter, hr]

theorem dispatchStep_close (d : Dispatch) :
    (if (d.channel.revents_ &&& EPOLLHUP != 0) && !(d.channel.revents_ &&& EPOLLIN != 0) then
      callIfSet CallbackKind.close d.channel.closeCallback_ d else d)
      = dispatchStep d CallbackKind.close := by
  simp only [dispatchStep, fires, Channel.callback, test_EPOLLHUP, test_EPOLLIN]

theorem dispatchStep_error (d : Dispatch) :
    (if d.channel.revents_ &&& EPOLLERR != 0 then
      callIfSet CallbackKind.error d.channel.errorCallback_ d else d)
      = dispatchStep d CallbackKind.error := by
  simp only [dispatchStep, fires, Channel.callback, test_EPOLLERR]

theorem dispatchStep_read (d : Dispatch) :
    (if d.channel.revents_ &&& (EPOLLIN ||| EPOLLPRI ||| EPOLLRDHUP) != 0 then
      callIfSet CallbackKind.read d.channel.readCallback_ d else d)
      = dispatchStep d CallbackKind.read := by
  simp only [dispatchStep, fires, Channel.callback, test_readable]

theorem dispatchStep_write (d : Dispatch) :
    (if d.channel.revents_ &&& EPOLLOUT != 0 then
      callIfSet CallbackKind.write d.channel.writeCallback_ d else d)
      = dispatchStep d CallbackKind.write := by
  simp only [dispatchStep, fires, Channel.callback, test_EPOLLOUT]

theorem handleEventsWithGuard_eq_foldl (c : Channel) :
    c.handleEventsWithGuard =
      (match ([CallbackKind.close, CallbackKind.error, CallbackKind.read,
          CallbackKind.write].foldl dispatchStep (dispatchStart c)).exit with
      | Exit.returned =>
        { ([CallbackKind.close, CallbackKind.error, CallbackKind.read,
            CallbackKind.write].foldl dispatchStep (dispatchStart c)) with
          channel := { ([CallbackKind.close, CallbackKind.error, CallbackKind.read,
            CallbackKind.write].foldl dispatchStep (dispatchStart c)).channel with
              handlingEvents_ := false } }
      | _ => [CallbackKind.close, CallbackKind.error, CallbackKind.read,
          CallbackKind.write].foldl dispatchStep (dispatchStart c)) := by
  simp only [List.foldl]
  rw [← dispatchStep_write, ← dispatchStep_read, ← dispatchStep_error, ← dispatchStep_close]
  rfl

theorem raises_dispatchStart (c : Channel) (k : CallbackKind) :
    (dispatchStart c).channel.raises k = c.raises k := by
  cases k <;> rfl

theorem callsUntilThrow_dispatchStart (c : Channel) (ks : List CallbackKind) :
    callsUntilThrow (dispatchStart c).channel ks = callsUntilThrow c ks := by
  induction ks with
  | nil => rfl
  | cons k ks ih => simp only [callsUntilThrow, raises_dispatchStart, ih]

theorem exitAfter_dispatchStart (c : Channel) (ks : List CallbackKind) :
    exitAfter (dispatchStart c).channel ks = exitAfter c ks := by
  induction ks with
  | nil => rfl
  | cons k ks ih => simp only [exitAfter, raises_dispatchStart, ih]

theorem expectedCalls_dispatchStart (c : Channel) :
    [CallbackKind.close, CallbackKind.error, CallbackKind.read, CallbackKind.write].filter
      (fun k => fires (dispatchStart c).channel.revents_ k
        && ((dispatchStart c).channel.callback k).isSome) = expectedCalls c := by
  rfl

theorem exitAfter_ne_aborted (c : Channel) (ks : List CallbackKind) (v : Violation) :
    exitAfter c ks ≠ Exit.aborted v := by
  induction ks with
  | nil => simp [exitAfter]
  | cons k ks ih =>
    unfold exitAfter
    split
    · simp
    · exact ih

/-- What `handleEventsWithGuard` does, in full: it calls the expected handlers in
order up to the first one that raises, and resets the in-dispatch flag exactly
when none raised. -/
theorem handleEventsWithGuard_spec (c : Channel) :
    c.handleEventsWithGuard.invoked = callsUntilThrow c (expectedCalls c) ∧
    c.handleEventsWithGuard.exit = exitAfter c (expectedCalls c) ∧
    c.handleEventsWithGuard.channel =
      { c with handlingEvents_ :=
          (match exitAfter c (expectedCalls c) with
           | Exit.returned => false
           | _ => true) } := by
  obtain ⟨hch, hinv, hex⟩ := foldl_dispatchStep
    [CallbackKind.close, CallbackKind.error, CallbackKind.read, CallbackKind.write]
    (dispatchStart c) rfl
  rw [expectedCalls_dispatchStart, callsUntilThrow_dispatchStart] at hinv
  rw [expectedCalls_dispatchStart, exitAfter_dispatchStart] at hex
  rw [handleEventsWithGuard_eq_foldl]
  generalize [CallbackKind.close, CallbackKind.error, CallbackKind.read,
    CallbackKind.write].foldl dispatchStep (dispatchStart c) = d at hch hinv hex
  obtain ⟨ch, inv, ex⟩ := d
  simp only [dispatchStart, List.nil_append] at hch hinv hex
  subst hch hinv hex
  cases hx : exitAfter c (expectedCalls c) with
  | returned => exact ⟨rfl, rfl, rfl⟩
  | aborted v => exact absurd hx (exitAfter_ne_aborted _ _ _)
  | threw k => exact ⟨rfl, rfl, rfl⟩

theorem callsUntilThrow_of_returned (c : Channel) (ks : List CallbackKind)
    (h : exitAfter c ks = Exit.returned) : callsUntilThrow c ks = ks := by
  induction ks with
  | nil => rfl
  | cons k ks ih =>
    unfold exitAfter at h
    unfold callsUntilThrow
    cases hr : c.raises k
    · simp only [hr] at h
      simp [ih h]
    · simp [hr] at h

theorem callsUntilThrow_subset (c : Channel) (ks : List CallbackKind) (k : CallbackKind)
    (h : k ∈ callsUntilThrow c ks) : k ∈ ks := by
  induction ks with
  | nil => simp [callsUntilThrow] at h
  | cons j ks ih =>
    unfold callsUntilThrow at h
    cases hr : c.raises j
    · simp only [hr] at h
      rcases List.mem_cons.mp h with h | h
      · exact h ▸ List.mem_cons_self _ _
      · exact List.mem_cons_of_mem _ (ih h)
    · simp only [hr, if_true, List.mem_singleton] at h
      exact h ▸ List.mem_cons_self _ _

theorem head_mem_callsUntilThrow (c : Channel) (k : CallbackKind) (ks : List CallbackKind) :
    k ∈ callsUntilThrow c (k :: ks) := by
  unfold callsUntilThrow
  split <;> simp

theorem handleEvents_of_proceeds (c : Channel) (alive : OwnerPtr → Bool)
    (h : dispatchProceeds c alive = true) :
    c.handleEvents true alive = c.handleEventsWithGuard := by
  unfold dispatchProceeds at h
  unfold Channel.handleEvents
  cases ht : c.tied_
  · simp
  · cases hl : weakLock alive c.tie_ with
    | none => simp [ht, hl] at h
    | some o => simp

/-! ## Registration: `EPoller::updateChannel` -/

/-- C1: for a handle that is registered (`polling()` is true), `updateChannel`
issues `EPOLL_CTL_MOD` and leaves the handle registered when the interest mask is
non-empty, issues `EPOLL_CTL_DEL` and marks it not registered when the mask is
empty; the operation is issued for this handle (its descriptor, mask and address)
and the interest mask is unchanged in both cases. -/
theorem C1_updateChannel_registered (self : EPoller) (ctlRet : Int) (p : ChannelPtr)
    (c : Channel) (hreg : c.polling = true) :
    ∃ r, self.updateChannel true ctlRet p c = .ok r ∧
      r.ctl = { epfd := self.epollfd_
                op := if c.events_ = 0 then EPOLL_CTL_DEL else EPOLL_CTL_MOD
                fd := c.fd_
                event := { events := c.events_, ptr := p } } ∧
      r.channel.polling = (if c.events_ = 0 then false else true) ∧
      r.channel.events_ = c.events_ := by
  unfold Channel.polling at hreg
  by_cases h0 : c.events_ = 0
  · refine ⟨self.updateChannelOp EPOLL_CTL_DEL ctlRet p (c.setPollingState false), ?_, ?_, ?_, ?_⟩
    · simp [EPoller.updateChannel, Channel.polling, Channel.isNoneEvents, hreg, h0]
    · simp [EPoller.updateChannelOp, Channel.setPollingState, Channel.fd, Channel.events, h0]
    · simp [EPoller.updateChannelOp, Channel.setPollingState, Channel.polling, h0]
    · rfl
  · refine ⟨self.updateChannelOp EPOLL_CTL_MOD ctlRet p c, ?_, ?_, ?_, ?_⟩
    · simp [EPoller.updateChannel, Channel.polling, Channel.isNoneEvents, hreg, h0]
    · simp [EPoller.updateChannelOp, Channel.fd, Channel.events, h0]
    · simp [EPoller.updateChannelOp, Channel.polling, h0, hreg]
    · rfl

theorem C1_updateChannel_registered_witness :
    ((Channel.new 5).setPollingState true).enableRead.1.polling = true ∧
    ∃ r, (EPoller.mk 3 []).updateChannel true 0 7
        ((Channel.new 5).setPollingState true).enableRead.1 = .ok r ∧
      r.ctl.op = EPOLL_CTL_MOD ∧ r.channel.polling = true ∧ r.channel.events_ = 3 := by
  refine ⟨by decide, ?_⟩
  obtain ⟨r, hr, hctl, hpol, hev⟩ := C1_updateChannel_registered (EPoller.mk 3 []) 0 7
    ((Channel.new 5).setPollingState true).enableRead.1 (by decide)
  refine ⟨r, hr, ?_, ?_, ?_⟩
  · rw [hctl]; decide
  · rw [hpol]; decide
  · rw [hev]; decide

/-- C2, as stated, fails: `disableAll` on a freshly constructed handle leaves a
handle that is not registered with an empty mask, and `updateChannel` then stops
at `assert(!channel->isNoneEvents())` without issuing the add operation. -/
theorem C2_counterexample :
    (Channel.new 5).disableAll.1.polling = false ∧
    (EPoller.mk 3 []).updateChannel true 0 7 (Channel.new 5).disableAll.1
      = .error (Violation.assertion "!channel->isNoneEvents()") ∧
    ¬ ∃ r, (EPoller.mk 3 []).updateChannel true 0 7 (Channel.new 5).disableAll.1 = .ok r := by
  refine ⟨by decide, by decide, ?_⟩
  rintro ⟨r, hr⟩
  have h : (EPoller.mk 3 []).updateChannel true 0 7 (Channel.new 5).disableAll.1
      = .error (Violation.assertion "!channel->isNoneEvents()") := by decide
  rw [h] at hr
  cases hr

/-- C2, amended: for a handle that is not registered, `updateChannel` issues
`EPOLL_CTL_ADD` for this handle and marks it registered, leaving the mask as it
is, when the interest mask is non-empty; when the mask is empty it fails the
assertion `!channel->isNoneEvents()` and issues nothing. -/
theorem C2_updateChannel_unregistered (self : EPoller) (ctlRet : Int) (p : ChannelPtr)
    (c : Channel) (hunreg : c.polling = false) :
    self.updateChannel true ctlRet p c =
      if c.events_ = 0 then .error (Violation.assertion "!channel->isNoneEvents()")
      else .ok { channel := { c with polling_ := true }
                 ctl := { epfd := self.epollfd_
                          op := EPOLL_CTL_ADD
                          fd := c.fd_
                          event := { events := c.events_, ptr := p } }
                 reports := if ctlRet == -1 then ["EPoller::epoll_ctl()"] else [] } := by
  unfold Channel.polling at hunreg
  by_cases h0 : c.events_ = 0
  · simp [EPoller.updateChannel, Channel.polling, Channel.isNoneEvents, hunreg, h0]
  · simp [EPoller.updateChannel, Channel.polling, Channel.isNoneEvents, hunreg, h0,
      EPoller.updateChannelOp, Channel.setPollingState, Channel.fd, Channel.events]

theorem C2_updateChannel_unregistered_witness :
    (Channel.new 5).enableWrite.1.polling = false ∧
    (EPoller.mk 3 []).updateChannel true (-1) 7 (Channel.new 5).enableWrite.1 =
      .ok { channel := { (Channel.new 5).enableWrite.1 with polling_ := true }
            ctl := { epfd := 3, op := EPOLL_CTL_ADD, fd := 5, event := { events := 4, ptr := 7 } }
            reports := ["EPoller::epoll_ctl()"] } := by
  refine ⟨by decide, ?_⟩
  have h := C2_updateChannel_unregistered (EPoller.mk 3 []) (-1) 7 (Channel.new 5).enableWrite.1
    (by decide)
  rw [h]
  decide

/-! ## Dispatch: `Channel::handleEvents` -/

/-- C3: on a handle that has been tied (`tied_` is set, which only `tie` does) and
whose owner cannot be locked, `handleEvents` invokes no callback, whatever the
readiness mask and the installed callbacks, and leaves the whole handle (in-dispatch
flag, interest mask, readiness mask, registered flag) as it was; it returns
normally when called on the loop thread. -/
theorem C3_handleEvents_owner_gone (c : Channel) (inLoopThread : Bool) (alive : OwnerPtr → Bool)
    (htied : c.tied_ = true) (hgone : weakLock alive c.tie_ = none) :
    (c.handleEvents inLoopThread alive).invoked = [] ∧
    (c.handleEvents inLoopThread alive).channel = c ∧
    (c.handleEvents inLoopThread alive).exit =
      (if inLoopThread then Exit.returned else Exit.aborted Violation.notInLoopThread) := by
  unfold Channel.handleEvents
  cases inLoopThread <;> simp [htied, hgone]

theorem C3_handleEvents_owner_gone_witness :
    ((((Channel.new 5).tie (some 9)).setReadCallback (some ⟨false⟩)).setRevents EPOLLIN).tied_ = true ∧
    weakLock (fun _ => false)
      ((((Channel.new 5).tie (some 9)).setReadCallback (some ⟨false⟩)).setRevents EPOLLIN).tie_
        = none ∧
    (((((Channel.new 5).tie (some 9)).setReadCallback (some ⟨false⟩)).setRevents
      EPOLLIN).handleEvents true (fun _ => false)).invoked = [] :=
  ⟨by decide, by decide,
    (C3_handleEvents_owner_gone
      ((((Channel.new 5).tie (some 9)).setReadCallback (some ⟨false⟩)).setRevents EPOLLIN)
      true (fun _ => false) (by decide) (by decide)).1⟩

/-- C4: when dispatch proceeds (the handle is untied, or tied to a live owner) and
no callback fails, the callbacks `handleEvents` invokes are exactly the slots of
`[close, error, read, write]`, in that order, that have a handler installed and
whose condition holds: close on `EPOLLHUP` without `EPOLLIN`, error on `EPOLLERR`,
read on any of `EPOLLIN`, `EPOLLPRI`, `EPOLLRDHUP`, write on `EPOLLOUT`; none is
invoked twice. -/
theorem C4_handleEvents_calls (c : Channel) (alive : OwnerPtr → Bool)
    (hproceeds : dispatchProceeds c alive = true)
    (hok : (c.handleEvents true alive).exit = Exit.returned) :
    (c.handleEvents true alive).invoked =
      [CallbackKind.close, CallbackKind.error, CallbackKind.read, CallbackKind.write].filter
        (fun k =>
          (match k with
           | CallbackKind.close => flagSet c.revents_ EPOLLHUP && !flagSet c.revents_ EPOLLIN
           | CallbackKind.error => flagSet c.revents_ EPOLLERR
           | CallbackKind.read => flagSet c.revents_ EPOLLIN || flagSet c.revents_ EPOLLPRI
               || flagSet c.revents_ EPOLLRDHUP
           | CallbackKind.write => flagSet c.revents_ EPOLLOUT)
          && (c.callback k).isSome) ∧
    (c.handleEvents true alive).invoked.Nodup := by
  rw [handleEvents_of_proceeds c alive hproceeds] at hok ⊢
  obtain ⟨hinv, hex, _⟩ := handleEventsWithGuard_spec c
  rw [hex] at hok
  rw [hinv, callsUntilThrow_of_returned c _ hok]
  have hfilter : expectedCalls c =
      [CallbackKind.close, CallbackKind.error, CallbackKind.read, CallbackKind.write].filter
        (fun k =>
          (match k with
           | CallbackKind.close => flagSet c.revents_ EPOLLHUP && !flagSet c.revents_ EPOLLIN
           | CallbackKind.error => flagSet c.revents_ EPOLLERR
           | CallbackKind.read => flagSet c.revents_ EPOLLIN || flagSet c.revents_ EPOLLPRI
               || flagSet c.revents_ EPOLLRDHUP
           | CallbackKind.write => flagSet c.revents_ EPOLLOUT)
          && (c.callback k).isSome) := by
    unfold expectedCalls
    congr 1
  refine ⟨hfilter, ?_⟩
  unfold expectedCalls
  exact List.Nodup.filter _ (by decide)

theorem C4_handleEvents_calls_witness :
    dispatchProceeds ((((Channel.new 5).setReadCallback (some ⟨false⟩)).setWriteCallback
      (some ⟨false⟩)).setRevents (EPOLLIN ||| EPOLLOUT)) (fun _ => false) = true ∧
    (((((Channel.new 5).setReadCallback (some ⟨false⟩)).setWriteCallback
      (some ⟨false⟩)).setRevents (EPOLLIN ||| EPOLLOUT)).handleEvents true (fun _ => false)).exit
        = Exit.returned ∧
    (((((Channel.new 5).setReadCallback (some ⟨false⟩)).setWriteCallback
      (some ⟨false⟩)).setRevents (EPOLLIN ||| EPOLLOUT)).handleEvents true (fun _ => false)).invoked
        = [CallbackKind.read, CallbackKind.write] := by
  refine ⟨by decide, by decide, ?_⟩
  rw [(C4_handleEvents_calls ((((Channel.new 5).setReadCallback (some ⟨false⟩)).setWriteCallback
      (some ⟨false⟩)).setRevents (EPOLLIN ||| EPOLLOUT)) (fun _ => false)
      (by decide) (by decide)).1]
  decide

/-- C5, as stated, fails: with `EPOLLHUP` and `EPOLLPRI` reported and `EPOLLIN`
clear, on an untied handle with a close and a read handler, `handleEvents`
invokes the close handler and then the read handler. -/
theorem C5_counterexample :
    flagSet (EPOLLHUP ||| EPOLLPRI) EPOLLHUP = true ∧
    flagSet (EPOLLHUP ||| EPOLLPRI) EPOLLIN = false ∧
    (((((Channel.new 5).setCloseCallback (some ⟨false⟩)).setReadCallback
      (some ⟨false⟩)).setRevents (EPOLLHUP ||| EPOLLPRI)).handleEvents true (fun _ => true)).invoked
        = [CallbackKind.close, CallbackKind.read] := by
  decide

/-- C5, amended: for every readiness mask in which `EPOLLHUP` is set and
`EPOLLIN`, `EPOLLPRI` and `EPOLLRDHUP` are clear, on a handle with both a close
handler and a read handler installed and dispatch not skipped, `handleEvents`
invokes the close handler (first) and does not invoke the read handler. -/
theorem C5_hangup_calls_close_not_read (c : Channel) (alive : OwnerPtr → Bool)
    (hhup : flagSet c.revents_ EPOLLHUP = true) (hin : flagSet c.revents_ EPOLLIN = false)
    (hpri : flagSet c.revents_ EPOLLPRI = false) (hrdhup : flagSet c.revents_ EPOLLRDHUP = false)
    (hclose : c.closeCallback_.isSome = true) (_hread : c.readCallback_.isSome = true)
    (hproceeds : dispatchProceeds c alive = true) :
    (c.handleEvents true alive).invoked.head? = some CallbackKind.close ∧
    CallbackKind.close ∈ (c.handleEvents true alive).invoked ∧
    CallbackKind.read ∉ (c.handleEvents true alive).invoked := by
  rw [handleEvents_of_proceeds c alive hproceeds]
  obtain ⟨hinv, _, _⟩ := handleEventsWithGuard_spec c
  rw [hinv]
  have hexp : ∃ rest, expectedCalls c = CallbackKind.close :: rest := by
    unfold expectedCalls
    rw [List.filter_cons_of_pos (by simp [fires, Channel.callback, hhup, hin, hclose])]
    exact ⟨_, rfl⟩
  obtain ⟨rest, hrest⟩ := hexp
  refine ⟨?_, ?_, ?_⟩
  · rw [hrest]
    unfold callsUntilThrow
    split <;> rfl
  · rw [hrest]
    exact head_mem_callsUntilThrow c _ _
  · intro hmem
    have hmem2 := callsUntilThrow_subset c _ _ hmem
    unfold expectedCalls at hmem2
    rw [List.mem_filter] at hmem2
    simp [fires, hin, hpri, hrdhup] at hmem2

theorem C5_hangup_calls_close_not_read_witness :
    (((((Channel.new 5).setCloseCallback (some ⟨false⟩)).setReadCallback
      (some ⟨false⟩)).setRevents (EPOLLHUP ||| EPOLLOUT)).handleEvents true
        (fun _ => true)).invoked.head? = some CallbackKind.close ∧
    CallbackKind.close ∈ (((((Channel.new 5).setCloseCallback (some ⟨false⟩)).setReadCallback
      (some ⟨false⟩)).setRevents (EPOLLHUP ||| EPOLLOUT)).handleEvents true
        (fun _ => true)).invoked ∧
    CallbackKind.read ∉ (((((Channel.new 5).setCloseCallback (some ⟨false⟩)).setReadCallback
      (some ⟨false⟩)).setRevents (EPOLLHUP ||| EPOLLOUT)).handleEvents true
        (fun _ => true)).invoked :=
  C5_hangup_calls_close_not_read
    ((((Channel.new 5).setCloseCallback (some ⟨false⟩)).setReadCallback
      (some ⟨false⟩)).setRevents (EPOLLHUP ||| EPOLLOUT)) (fun _ => true)
    (by decide) (by decide) (by decide) (by decide) (by decide) (by decide) (by decide)

/-- C6, as stated, fails: on a fresh handle (in-dispatch flag false) with a close
handler that raises and `EPOLLHUP` reported, the exception leaves `handleEvents`
with the in-dispatch flag still true. -/
theorem C6_counterexample :
    (((Channel.new 5).setCloseCallback (some ⟨true⟩)).setRevents EPOLLHUP).handlingEvents_ = false ∧
    ((((Channel.new 5).setCloseCallback (some ⟨true⟩)).setRevents EPOLLHUP).handleEvents true
      (fun _ => true)).exit = Exit.threw CallbackKind.close ∧
    ((((Channel.new 5).setCloseCallback (some ⟨true⟩)).setRevents EPOLLHUP).handleEvents true
      (fun _ => true)).channel.handlingEvents_ = true := by
  decide

/-- C6, amended: for every handle whose in-dispatch flag is false before
`handleEvents` is called, the flag is false again when `handleEvents` exits without
an exception (all invoked handlers returned, or dispatch was skipped); when an
invoked handler raises, the exception leaves `handleEvents` with the flag true. -/
theorem C6_handlingEvents_after (c : Channel) (inLoopThread : Bool) (alive : OwnerPtr → Bool)
    (hbefore : c.handlingEvents_ = false) :
    (c.handleEvents inLoopThread alive).channel.handlingEvents_ =
      (match (c.handleEvents inLoopThread alive).exit with
       | Exit.threw _ => true
       | _ => false) := by
  obtain ⟨_, hex, hch⟩ := handleEventsWithGuard_spec c
  have hguard : c.handleEventsWithGuard.channel.handlingEvents_ =
      (match c.handleEventsWithGuard.exit with
       | Exit.threw _ => true
       | _ => false) := by
    rw [hch, hex]
    cases hx : exitAfter c (expectedCalls c) with
    | returned => rfl
    | aborted v => exact absurd hx (exitAfter_ne_aborted _ _ _)
    | threw k => rfl
  unfold Channel.handleEvents
  cases inLoopThread
  · simpa using hbefore
  · cases ht : c.tied_
    · simpa using hguard
    · cases hl : weakLock alive c.tie_ with
      | none => simpa using hbefore
      | some o => simpa using hguard

theorem C6_handlingEvents_after_witness :
    (((Channel.new 5).setReadCallback (some ⟨false⟩)).setRevents EPOLLIN).handlingEvents_ = false ∧
    ((((Channel.new 5).setReadCallback (some ⟨false⟩)).setRevents EPOLLIN).handleEvents true
      (fun _ => true)).exit = Exit.returned ∧
    ((((Channel.new 5).setReadCallback (some ⟨false⟩)).setRevents EPOLLIN).handleEvents true
      (fun _ => true)).channel.handlingEvents_ = false := by
  refine ⟨by decide, by decide, ?_⟩
  rw [C6_handlingEvents_after (((Channel.new 5).setReadCallback (some ⟨false⟩)).setRevents EPOLLIN)
    true (fun _ => true) (by decide)]
  decide

/-! ## The readiness buffer of `EPoller::poll` -/

theorem storeFront_length (buf entries : List EpollEvent) :
    (storeFront buf entries).length = buf.length := by
  unfold storeFront
  simp only [List.length_take, List.length_append, List.length_drop]
  omega

theorem store_length (w : WaitResult) (buf : List EpollEvent) :
    (w.store buf).length = buf.length := by
  cases w with
  | failed errno => rfl
  | ready entries => exact storeFront_length buf entries

theorem toInt32_of_lt (c : Nat) (h : c < 2 ^ 31) : toInt32 c = (c : Int) := by
  unfold toInt32
  have hmod : c % 2 ^ 32 = c := Nat.mod_eq_of_lt (by omega)
  rw [hmod, if_pos h]

theorem toInt32_pow_cases (k : Nat) :
    (1024 * 2 ^ k < 2 ^ 31 ∧ toInt32 (1024 * 2 ^ k) = ((1024 * 2 ^ k : Nat) : Int)) ∨
    (2 ^ 31 ≤ 1024 * 2 ^ k ∧ toInt32 (1024 * 2 ^ k) ≤ 0) := by
  rcases Nat.lt_or_ge k 21 with hk | hk
  · left
    have hpow : 2 ^ k ≤ 2 ^ 20 := Nat.pow_le_pow_right (by decide) (by omega)
    have hlt : 1024 * 2 ^ k < 2 ^ 31 := by omega
    exact ⟨hlt, toInt32_of_lt _ hlt⟩
  · right
    obtain ⟨j, rfl⟩ : ∃ j, k = 21 + j := ⟨k - 21, by omega⟩
    have hsplit : 1024 * 2 ^ (21 + j) = 2 ^ 31 * 2 ^ j := by
      rw [pow_add]; ring
    have hpos : 1 ≤ 2 ^ j := Nat.one_le_two_pow
    refine ⟨by rw [hsplit]; nlinarith, ?_⟩
    rw [hsplit]
    unfold toInt32
    cases j with
    | zero => simp
    | succ i =>
      have hmod : 2 ^ 31 * 2 ^ (i + 1) % 2 ^ 32 = 0 := by
        have : 2 ^ 31 * 2 ^ (i + 1) = 2 ^ 32 * 2 ^ i := by
          rw [pow_succ]; ring
        rw [this, Nat.mul_mod_right]
      rw [hmod]
      simp

/-- On a buffer of size `1024 * 2 ^ k` the test `nEvents > 0 && nEvents == maxEvents`
of `poll` is the test "`nEvents` equals the buffer size", for every `int` `nEvents`. -/
theorem full_batch_iff (k : Nat) (n : Int) (hn : isInt32 n) :
    (0 < n ∧ n = toInt32 (1024 * 2 ^ k)) ↔ n = ((1024 * 2 ^ k : Nat) : Int) := by
  have hpos : 1 ≤ 2 ^ k := Nat.one_le_two_pow
  unfold isInt32 at hn
  rcases toInt32_pow_cases k with ⟨hlt, heq⟩ | ⟨hge, hle⟩
  · rw [heq]
    constructor
    · exact fun h => h.2
    · intro h
      refine ⟨?_, h⟩
      rw [h]
      have : 0 < 1024 * 2 ^ k := by omega
      exact_mod_cast this
  · constructor
    · intro h
      omega
    · intro h
      have hc : ((2 ^ 31 : Nat) : Int) ≤ ((1024 * 2 ^ k : Nat) : Int) := by exact_mod_cast hge
      have h31 : ((2 ^ 31 : Nat) : Int) = 2 ^ 31 := by norm_num
      omega

theorem poll_of_ret_neg_one (self : EPoller) (w : WaitResult) (heap : Heap)
    (activeChannels : List ChannelPtr) (h : w.ret = -1) :
    self.poll true w heap activeChannels =
      .ok { poller := { self with events_ := w.store self.events_ }
            heap := heap
            activeChannels := activeChannels
            reports := if w.errno != EINTR then ["EPoller::epoll_wait()"] else [] } := by
  simp [EPoller.poll, h]

theorem poll_of_ret_zero (self : EPoller) (w : WaitResult) (heap : Heap)
    (activeChannels : List ChannelPtr) (h : w.ret = 0) :
    self.poll true w heap activeChannels =
      .ok { poller := { self with events_ := w.store self.events_ }
            heap := heap
            activeChannels := activeChannels
            reports := [] } := by
  simp [EPoller.poll, h]

theorem poll_of_ret_pos (self : EPoller) (w : WaitResult) (heap : Heap)
    (activeChannels : List ChannelPtr) (h : 0 < w.ret) :
    self.poll true w heap activeChannels =
      .ok { poller :=
              { epollfd_ := self.epollfd_
                events_ := (if w.ret = toInt32 self.events_.length then
                    w.store self.events_ ++ List.replicate
                      (2 * (w.store self.events_).length - (w.store self.events_).length) default
                  else w.store self.events_) }
            heap := ((List.range w.ret.toNat).foldl (EPoller.pollStep (w.store self.events_))
              (heap, activeChannels)).1
            activeChannels := ((List.range w.ret.toNat).foldl
              (EPoller.pollStep (w.store self.events_)) (heap, activeChannels)).2
            reports := [] } := by
  have hne : ¬ w.ret = -1 := by omega
  simp [EPoller.poll, h, hne]

theorem ret_cases (w : WaitResult) : w.ret = -1 ∨ w.ret = 0 ∨ 0 < w.ret := by
  cases w with
  | failed errno => exact Or.inl rfl
  | ready entries =>
    right
    simp only [WaitResult.ret]
    omega

theorem poll_true (self : EPoller) (w : WaitResult) (heap : Heap)
    (activeChannels : List ChannelPtr) :
    ∃ r, self.poll true w heap activeChannels = .ok r ∧
      r.poller.events_.length =
        (if 0 < w.ret ∧ w.ret = toInt32 self.events_.length then 2 * self.events_.length
         else self.events_.length) := by
  rcases ret_cases w with h | h | h
  · refine ⟨_, poll_of_ret_neg_one self w heap activeChannels h, ?_⟩
    have hneg : ¬ (0 < w.ret ∧ w.ret = toInt32 self.events_.length) := by
      rintro ⟨hpos, _⟩; omega
    simp only [hneg, if_false, store_length]
  · refine ⟨_, poll_of_ret_zero self w heap activeChannels h, ?_⟩
    have hneg : ¬ (0 < w.ret ∧ w.ret = toInt32 self.events_.length) := by
      rintro ⟨hpos, _⟩; omega
    simp only [hneg, if_false, store_length]
  · refine ⟨_, poll_of_ret_pos self w heap activeChannels h, ?_⟩
    by_cases h3 : w.ret = toInt32 self.events_.length
    · simp only [if_pos h3, if_pos (And.intro h h3), List.length_append, store_length,
        List.length_replicate]
      omega
    · have hneg : ¬ (0 < w.ret ∧ w.ret = toInt32 self.events_.length) := fun hh => h3 hh.2
      simp only [if_neg h3, if_neg hneg, store_length]

theorem pollRun_size (calls : List (WaitResult × Heap × List ChannelPtr)) (p0 : EPoller)
    (h0 : ∃ k, p0.events_.length = 1024 * 2 ^ k) :
    ∃ p, pollRun p0 calls = .ok p ∧ p0.events_.length ≤ p.events_.length ∧
      ∃ k, p.events_.length = 1024 * 2 ^ k := by
  induction calls generalizing p0 with
  | nil => exact ⟨p0, rfl, le_refl _, h0⟩
  | cons call rest ih =>
    obtain ⟨r, hr, hsize⟩ := poll_true p0 call.1 call.2.1 call.2.2
    obtain ⟨k, hk⟩ := h0
    have hstep : p0.events_.length ≤ r.poller.events_.length ∧
        ∃ j, r.poller.events_.length = 1024 * 2 ^ j := by
      rw [hsize]
      split
      · exact ⟨by omega, k + 1, by rw [hk, pow_succ]; ring⟩
      · exact ⟨le_refl _, k, hk⟩
    obtain ⟨p, hp, hle, hpow⟩ := ih r.poller hstep.2
    refine ⟨p, ?_, le_trans hstep.1 hle, hpow⟩
    unfold pollRun
    rw [hr]
    exact hp

/-- C7: on every poller reached from the constructor by any sequence of `poll`
calls, a `poll` whose wait returns `n` leaves the buffer with twice its size `c`
if `n = c` and with size `c` otherwise (also for `n = 0` and for a failed wait,
`n = -1`); the size never decreases, neither over the sequence nor in the call, and
it is `1024 * 2 ^ k` for some `k` before and after. -/
theorem C7_poll_buffer_size (epfd : Int) (hfd : epfd > 0)
    (calls : List (WaitResult × Heap × List ChannelPtr))
    (w : WaitResult) (heap : Heap) (activeChannels : List ChannelPtr) (hw : isInt32 w.ret) :
    ∃ p0 p r, EPoller.new epfd = .ok p0 ∧ pollRun p0 calls = .ok p ∧
      p.poll true w heap activeChannels = .ok r ∧
      r.poller.events_.length =
        (if w.ret = (p.events_.length : Int) then 2 * p.events_.length else p.events_.length) ∧
      p0.events_.length = 1024 ∧
      p0.events_.length ≤ p.events_.length ∧
      p.events_.length ≤ r.poller.events_.length ∧
      (∃ k, p.events_.length = 1024 * 2 ^ k) ∧
      (∃ k, r.poller.events_.length = 1024 * 2 ^ k) := by
  have hnew : EPoller.new epfd = .ok { epollfd_ := epfd, events_ := List.replicate 1024 default } := by
    unfold EPoller.new
    rw [if_pos hfd]
  have hlen0 : (EPoller.mk epfd (List.replicate 1024 default)).events_.length = 1024 :=
    List.length_replicate _ _
  obtain ⟨p, hp, hle, k, hk⟩ := pollRun_size calls
    { epollfd_ := epfd, events_ := List.replicate 1024 default } ⟨0, by rw [hlen0]; rfl⟩
  obtain ⟨r, hr, hsize⟩ := poll_true p w heap activeChannels
  have hiff := full_batch_iff k w.ret hw
  rw [← hk] at hiff
  have hsize2 : r.poller.events_.length =
      (if w.ret = (p.events_.length : Int) then 2 * p.events_.length else p.events_.length) := by
    rw [hsize]
    by_cases hfull : w.ret = (p.events_.length : Int)
    · rw [if_pos (hiff.mpr hfull), if_pos hfull]
    · rw [if_neg (fun hh => hfull (hiff.mp hh)), if_neg hfull]
  refine ⟨_, p, r, hnew, hp, hr, hsize2, hlen0, hle, ?_, ⟨k, hk⟩, ?_⟩
  · rw [hsize2]; split <;> omega
  · rw [hsize2]
    split
    · exact ⟨k + 1, by rw [hk, pow_succ]; ring⟩
    · exact ⟨k, hk⟩

set_option maxRecDepth 100000 in
theorem C7_poll_buffer_size_witness :
    (3 : Int) > 0 ∧ isInt32 (WaitResult.ready (List.replicate 1024 ⟨EPOLLIN, 7⟩)).ret ∧
    ∃ p0 r, EPoller.new 3 = .ok p0 ∧
      p0.poll true (WaitResult.ready (List.replicate 1024 ⟨EPOLLIN, 7⟩))
        (fun _ => Channel.new 5) [] = .ok r ∧
      p0.events_.length = 1024 ∧ r.poller.events_.length = 2048 := by
  refine ⟨by decide, by decide, ?_⟩
  obtain ⟨p0, p, r, hp0, hp, hr, hsize, hlen0, _, _, _, _⟩ :=
    C7_poll_buffer_size 3 (by decide) [] (WaitResult.ready (List.replicate 1024 ⟨EPOLLIN, 7⟩))
      (fun _ => Channel.new 5) [] (by decide)
  have hpp : p0 = p := by
    simp only [pollRun] at hp
    exact Except.ok.inj hp
  subst hpp
  refine ⟨p0, r, hp0, hr, hlen0, ?_⟩
  rw [hsize, hlen0]
  decide

/-! ## The loop over the ready entries -/

theorem storeFront_of_le (buf entries : List EpollEvent) (h : entries.length ≤ buf.length) :
    storeFront buf entries = entries ++ buf.drop entries.length := by
  unfold storeFront
  apply List.take_of_length_le
  simp only [List.length_append, List.length_drop]
  omega

theorem map_getD_range_append (l t : List EpollEvent) :
    (List.range l.length).map (fun i => (l ++ t).getD i default) = l := by
  apply List.ext_getElem
  · simp
  · intro i h1 h2
    simp only [List.getElem_map, List.getElem_range]
    rw [List.getD_eq_getElem _ _ (by simp; omega)]
    exact List.getElem_append_left h2

theorem foldl_pollStep (l t : List EpollEvent) (st : Heap × List ChannelPtr) :
    (List.range l.length).foldl (EPoller.pollStep (l ++ t)) st = l.foldl pollEntry st := by
  have h : (List.range l.length).foldl (EPoller.pollStep (l ++ t)) st
      = ((List.range l.length).map (fun i => (l ++ t).getD i default)).foldl pollEntry st := by
    rw [List.foldl_map]
    rfl
  rw [h, map_getD_range_append]

theorem foldl_pollEntry_active (l : List EpollEvent) (st : Heap × List ChannelPtr) :
    (l.foldl pollEntry st).2 = st.2 ++ l.map EpollEvent.ptr := by
  induction l generalizing st with
  | nil => simp
  | cons e es ih =>
    rw [List.foldl_cons, ih]
    simp [pollEntry]

theorem lastMask_cons (e : EpollEvent) (es : List EpollEvent) (p : ChannelPtr) :
    lastMask (e :: es) p =
      match lastMask es p with
      | some m => some m
      | none => if e.ptr = p then some e.events else none := by
  unfold lastMask
  rw [List.reverse_cons, List.find?_append]
  cases hfind : es.reverse.find? (fun x => x.ptr == p) with
  | some x => simp
  | none =>
    by_cases hp : e.ptr = p
    · simp [hp]
    · simp [hp]

theorem foldl_pollEntry_heap (l : List EpollEvent) (st : Heap × List ChannelPtr) :
    (l.foldl pollEntry st).1 = recordMasks st.1 l := by
  induction l generalizing st with
  | nil =>
    funext p
    simp [recordMasks, lastMask]
  | cons e es ih =>
    rw [List.foldl_cons, ih]
    funext p
    simp only [recordMasks, lastMask_cons, pollEntry]
    cases hlast : lastMask es p with
    | some m =>
      by_cases hp : p = e.ptr
      · subst hp
        simp [Function.update_same, Channel.setRevents]
      · simp [Function.update_noteq hp]
    | none =>
      by_cases hp : p = e.ptr
      · subst hp
        simp [Function.update_same]
      · have hp2 : ¬ e.ptr = p := fun h => hp h.symm
        simp [Function.update_noteq hp, hp2]

theorem lastMask_of_not_mem (l : List EpollEvent) (p : ChannelPtr)
    (h : p ∉ l.map EpollEvent.ptr) : lastMask l p = none := by
  unfold lastMask
  rw [Option.map_eq_none', List.find?_eq_none]
  intro x hx hxp
  apply h
  rw [List.mem_map]
  exact ⟨x, List.mem_reverse.mp hx, by simpa using hxp⟩

theorem lastMask_of_nodup (l : List EpollEvent) (e : EpollEvent) (he : e ∈ l)
    (hnodup : (l.map EpollEvent.ptr).Nodup) : lastMask l e.ptr = some e.events := by
  unfold lastMask
  cases hfind : l.reverse.find? (fun x => x.ptr == e.ptr) with
  | none =>
    rw [List.find?_eq_none] at hfind
    exact absurd (by simp) (hfind e (List.mem_reverse.mpr he))
  | some x =>
    have hx : x ∈ l := List.mem_reverse.mp (List.mem_of_find?_eq_some hfind)
    have hxp : x.ptr = e.ptr := by simpa using List.find?_some hfind
    have hxe : x = e := List.inj_on_of_nodup_map hnodup hx he hxp
    rw [hxe]
    rfl

/-- C8: when the wait returns `n > 0` entries, `n` at most the buffer size, `poll`
returns with the caller's list extended by the back-pointers of the `n` entries in
the order reported, and with the mask of its entry recorded on each handle named
(of the last entry naming it, should two entries name one handle; the kernel
reports a registered descriptor once per wait, so that the back-pointers are
distinct); no other handle changes, and the outcome is the same whatever the
buffer held before the call: what lies at index `n` and beyond is not read. -/
theorem C8_poll_ready (self : EPoller) (entries : List EpollEvent) (heap : Heap)
    (activeChannels : List ChannelPtr) (hpos : 0 < entries.length)
    (hfit : entries.length ≤ self.events_.length) :
    ∃ r, self.poll true (WaitResult.ready entries) heap activeChannels = .ok r ∧
      r.activeChannels = activeChannels ++ entries.map EpollEvent.ptr ∧
      r.heap = recordMasks heap entries ∧
      (∀ p, p ∉ entries.map EpollEvent.ptr → r.heap p = heap p) ∧
      ((entries.map EpollEvent.ptr).Nodup →
        ∀ e ∈ entries, r.heap e.ptr = (heap e.ptr).setRevents e.events) ∧
      (∀ stale : List EpollEvent, stale.length = self.events_.length →
        ∃ r2, (EPoller.mk self.epollfd_ stale).poll true (WaitResult.ready entries) heap
            activeChannels = .ok r2 ∧
          r2.heap = r.heap ∧ r2.activeChannels = r.activeChannels) := by
  have hret : 0 < (WaitResult.ready entries).ret := by
    simp only [WaitResult.ret]; omega
  have hloop : ∀ buf : List EpollEvent, entries.length ≤ buf.length →
      (List.range (WaitResult.ready entries).ret.toNat).foldl
        (EPoller.pollStep ((WaitResult.ready entries).store buf)) (heap, activeChannels)
        = entries.foldl pollEntry (heap, activeChannels) := by
    intro buf hbuf
    have hn : (WaitResult.ready entries).ret.toNat = entries.length := by
      simp [WaitResult.ret]
    rw [hn]
    simp only [WaitResult.store]
    rw [storeFront_of_le buf entries hbuf]
    exact foldl_pollStep entries _ _
  refine ⟨_, poll_of_ret_pos self _ heap activeChannels hret, ?_, ?_, ?_, ?_, ?_⟩
  · simp only [hloop self.events_ hfit]
    exact foldl_pollEntry_active entries _
  · simp only [hloop self.events_ hfit]
    exact foldl_pollEntry_heap entries _
  · intro p hp
    simp only [hloop self.events_ hfit]
    rw [foldl_pollEntry_heap]
    simp only [recordMasks, lastMask_of_not_mem entries p hp]
  · intro hnodup e he
    simp only [hloop self.events_ hfit]
    rw [foldl_pollEntry_heap]
    simp only [recordMasks, lastMask_of_nodup entries e he hnodup]
  · intro stale hstale
    refine ⟨_, poll_of_ret_pos (EPoller.mk self.epollfd_ stale) _ heap activeChannels hret, ?_, ?_⟩
    · simp only [hloop self.events_ hfit, hloop stale (by omega)]
    · simp only [hloop self.events_ hfit, hloop stale (by omega)]

theorem C8_poll_ready_witness :
    0 < [EpollEvent.mk EPOLLIN 7, EpollEvent.mk EPOLLOUT 9].length ∧
    [EpollEvent.mk EPOLLIN 7, EpollEvent.mk EPOLLOUT 9].length
      ≤ (EPoller.mk 3 (List.replicate 4 default)).events_.length ∧
    ∃ r, (EPoller.mk 3 (List.replicate 4 default)).poll true
        (WaitResult.ready [EpollEvent.mk EPOLLIN 7, EpollEvent.mk EPOLLOUT 9])
        (fun _ => Channel.new 5) [1] = .ok r ∧
      r.activeChannels = [1, 7, 9] ∧
      (r.heap 7).revents_ = EPOLLIN ∧ (r.heap 9).revents_ = EPOLLOUT ∧
      r.heap 8 = Channel.new 5 := by
  refine ⟨by decide, by decide, ?_⟩
  obtain ⟨r, hr, hact, _, hframe, hmask, _⟩ := C8_poll_ready (EPoller.mk 3 (List.replicate 4 default))
    [EpollEvent.mk EPOLLIN 7, EpollEvent.mk EPOLLOUT 9] (fun _ => Channel.new 5) [1]
    (by decide) (by decide)
  refine ⟨r, hr, by rw [hact]; decide, ?_, ?_, hframe 8 (by decide)⟩
  · rw [hmask (by decide) (EpollEvent.mk EPOLLIN 7) (by decide)]
    rfl
  · rw [hmask (by decide) (EpollEvent.mk EPOLLOUT 9) (by decide)]
    rfl

theorem storeFront_nil (buf : List EpollEvent) : storeFront buf [] = buf := by
  simp [storeFront]

theorem store_of_ret_le_zero (w : WaitResult) (buf : List EpollEvent) (h : w.ret ≤ 0) :
    w.store buf = buf := by
  cases w with
  | failed errno => rfl
  | ready entries =>
    have hnil : entries = [] := by
      simp only [WaitResult.ret] at h
      apply List.eq_nil_of_length_eq_zero
      omega
    rw [hnil]
    exact storeFront_nil buf

/-- C9: when the wait fails (`-1`, whatever the `errno`) or returns zero entries,
`poll` returns normally and leaves the caller's list, every handle (so every
last-observed mask) and the poller with its buffer as they were; a report is made
exactly when the wait failed with an `errno` other than `EINTR`. -/
theorem C9_poll_nothing_ready (self : EPoller) (w : WaitResult) (heap : Heap)
    (activeChannels : List ChannelPtr) (hnone : w.ret ≤ 0) :
    ∃ r, self.poll true w heap activeChannels = .ok r ∧
      r.activeChannels = activeChannels ∧
      r.heap = heap ∧
      r.poller = self ∧
      r.poller.events_.length = self.events_.length ∧
      r.reports = (if w.ret = -1 ∧ w.errno ≠ EINTR then ["EPoller::epoll_wait()"] else []) := by
  have hstore := store_of_ret_le_zero w self.events_ hnone
  rcases ret_cases w with h | h | h
  · refine ⟨_, poll_of_ret_neg_one self w heap activeChannels h, rfl, rfl, ?_, ?_, ?_⟩
    · simp only [hstore]
    · simp only [hstore]
    · by_cases he : w.errno = EINTR
      · simp [he]
      · simp [he, h]
  · refine ⟨_, poll_of_ret_zero self w heap activeChannels h, rfl, rfl, ?_, ?_, ?_⟩
    · simp only [hstore]
    · simp only [hstore]
    · simp [h]
  · omega

theorem C9_poll_nothing_ready_witness :
    (WaitResult.failed 9).ret ≤ 0 ∧
    ∃ r, (EPoller.mk 3 (List.replicate 4 default)).poll true (WaitResult.failed 9)
        (fun _ => Channel.new 5) [1] = .ok r ∧
      r.activeChannels = [1] ∧ r.poller = EPoller.mk 3 (List.replicate 4 default) ∧
      r.reports = ["EPoller::epoll_wait()"] := by
  refine ⟨by decide, ?_⟩
  obtain ⟨r, hr, hact, _, hpoller, _, hrep⟩ := C9_poll_nothing_ready
    (EPoller.mk 3 (List.replicate 4 default)) (WaitResult.failed 9) (fun _ => Channel.new 5) [1]
    (by decide)
  exact ⟨r, hr, hact, hpoller, by rw [hrep]; decide⟩

/-! ## The interest operations of `Channel` -/

theorem two_pow_eq_iff (i k : Nat) : (2 ^ i = 2 ^ k) ↔ i = k :=
  ⟨fun h => Nat.pow_right_injective (le_refl 2) h, fun h => by rw [h]⟩

theorem flagSet_or_two_pow (e k i : Nat) :
    flagSet (e ||| 2 ^ k) (2 ^ i) = (flagSet e (2 ^ i) || decide (2 ^ i = 2 ^ k)) := by
  rw [flagSet_two_pow, flagSet_two_pow, Nat.testBit_or, Nat.testBit_two_pow]
  congr 1
  rw [decide_eq_decide, two_pow_eq_iff]
  exact eq_comm

theorem flagSet_and_xor_mask (e k i : Nat) (he : e < 2 ^ 32) :
    flagSet (e &&& ((2 ^ 32 - 1) ^^^ 2 ^ k)) (2 ^ i)
      = (flagSet e (2 ^ i) && !decide (2 ^ i = 2 ^ k)) := by
  rw [flagSet_two_pow, flagSet_two_pow, Nat.testBit_and, Nat.testBit_xor,
    Nat.testBit_two_pow_sub_one, Nat.testBit_two_pow]
  have hdec : decide (2 ^ i = 2 ^ k) = decide (k = i) := by
    rw [decide_eq_decide, two_pow_eq_iff]
    exact eq_comm
  rw [hdec]
  by_cases hi : i < 32
  · by_cases hki : k = i
    · simp [hi, hki]
    · simp [hi, hki]
  · have hbit : e.testBit i = false :=
      Nat.testBit_lt_two_pow (lt_of_lt_of_le he (Nat.pow_le_pow_right (by decide) (by omega)))
    simp [hbit]

theorem not32_EPOLLIN : not32 EPOLLIN = (2 ^ 32 - 1) ^^^ 2 ^ 0 := by decide

theorem not32_EPOLLOUT : not32 EPOLLOUT = (2 ^ 32 - 1) ^^^ 2 ^ 2 := by decide

theorem flagSet_zero (f : Nat) : flagSet 0 f = false := by
  simp [flagSet]

/-- C10: each of the five interest operations changes only its own flags of the
interest mask (a `uint32_t`): for every flag `2 ^ i`, after `enableRead` it is set
iff it was set or is `EPOLLIN` or `EPOLLPRI`, after `enableWrite` iff it was set or
is `EPOLLOUT`, after `disableRead` iff it was set and is not `EPOLLIN`, after
`disableWrite` iff it was set and is not `EPOLLOUT`, and after `disableAll` the mask
is zero. Nothing else of the handle changes (readiness mask, callbacks, flags), and
each operation makes exactly one `updateChannel` request to the loop, for the
updated handle, whether or not the mask changed. -/
theorem C10_interest_operations (c : Channel) (hmask : c.events_ < 2 ^ 32) :
    (sameButEvents c c.enableRead.1 ∧
      c.enableRead.2 = [LoopRequest.updateChannel c.enableRead.1] ∧
      c.enableRead.1.events_ = c.events_ ||| (EPOLLIN ||| EPOLLPRI) ∧
      ∀ i, flagSet c.enableRead.1.events_ (2 ^ i) =
        (flagSet c.events_ (2 ^ i) || decide (2 ^ i = EPOLLIN) || decide (2 ^ i = EPOLLPRI))) ∧
    (sameButEvents c c.enableWrite.1 ∧
      c.enableWrite.2 = [LoopRequest.updateChannel c.enableWrite.1] ∧
      c.enableWrite.1.events_ = c.events_ ||| EPOLLOUT ∧
      ∀ i, flagSet c.enableWrite.1.events_ (2 ^ i) =
        (flagSet c.events_ (2 ^ i) || decide (2 ^ i = EPOLLOUT))) ∧
    (sameButEvents c c.disableRead.1 ∧
      c.disableRead.2 = [LoopRequest.updateChannel c.disableRead.1] ∧
      ∀ i, flagSet c.disableRead.1.events_ (2 ^ i) =
        (flagSet c.events_ (2 ^ i) && !decide (2 ^ i = EPOLLIN))) ∧
    (sameButEvents c c.disableWrite.1 ∧
      c.disableWrite.2 = [LoopRequest.updateChannel c.disableWrite.1] ∧
      ∀ i, flagSet c.disableWrite.1.events_ (2 ^ i) =
        (flagSet c.events_ (2 ^ i) && !decide (2 ^ i = EPOLLOUT))) ∧
    (sameButEvents c c.disableAll.1 ∧
      c.disableAll.2 = [LoopRequest.updateChannel c.disableAll.1] ∧
      c.disableAll.1.events_ = 0) := by
  have hin : EPOLLIN = 2 ^ 0 := rfl
  have hpri : EPOLLPRI = 2 ^ 1 := rfl
  have hout : EPOLLOUT = 2 ^ 2 := rfl
  refine ⟨⟨rfl, rfl, rfl, ?_⟩, ⟨rfl, rfl, rfl, ?_⟩, ⟨rfl, rfl, ?_⟩, ⟨rfl, rfl, ?_⟩, ⟨rfl, rfl, rfl⟩⟩
  · intro i
    have hval : c.enableRead.1.events_ = (c.events_ ||| 2 ^ 0) ||| 2 ^ 1 := by
      show c.events_ ||| (EPOLLIN ||| EPOLLPRI) = _
      rw [hin, hpri, Nat.lor_assoc]
    rw [hval, hin, hpri, flagSet_or_two_pow, flagSet_or_two_pow]
  · intro i
    have hval : c.enableWrite.1.events_ = c.events_ ||| 2 ^ 2 := rfl
    rw [hval, hout, flagSet_or_two_pow]
  · intro i
    have hval : c.disableRead.1.events_ = c.events_ &&& not32 EPOLLIN := rfl
    rw [hval, not32_EPOLLIN, flagSet_and_xor_mask c.events_ 0 i hmask, hin]
  · intro i
    have hval : c.disableWrite.1.events_ = c.events_ &&& not32 EPOLLOUT := rfl
    rw [hval, not32_EPOLLOUT, flagSet_and_xor_mask c.events_ 2 i hmask, hout]

theorem C10_interest_operations_witness :
    (Channel.new 5).enableRead.1.events_ < 2 ^ 32 ∧
    sameButEvents (Channel.new 5).enableRead.1 (Channel.new 5).enableRead.1.enableRead.1 ∧
    (Channel.new 5).enableRead.1.enableRead.1.events_ = (Channel.new 5).enableRead.1.events_ ∧
    (Channel.new 5).enableRead.1.enableRead.2
      = [LoopRequest.updateChannel (Channel.new 5).enableRead.1] ∧
    flagSet (Channel.new 5).enableRead.1.disableRead.1.events_ EPOLLPRI = true ∧
    flagSet (Channel.new 5).enableRead.1.disableRead.1.events_ EPOLLIN = false := by
  have h := C10_interest_operations (Channel.new 5).enableRead.1 (by decide)
  refine ⟨by decide, h.1.1, ?_, ?_, ?_, ?_⟩
  · rw [h.1.2.2.1]; decide
  · rw [h.1.2.1]; decide
  · have h3 := h.2.2.1.2.2 1
    rw [show (2 : Nat) ^ 1 = EPOLLPRI from rfl] at h3
    rw [h3]; decide
  · have h3 := h.2.2.1.2.2 0
    rw [show (2 : Nat) ^ 0 = EPOLLIN from rfl] at h3
    rw [h3]; decide

/-! ## Removal: `Channel::remove` -/

/-- C11: `remove()` is a fatal contract violation (the failed `assert(polling_)`)
if and only if the handle is not registered; when it is registered, `remove()`
makes exactly one `removeChannel` request to the loop, for this handle, and
leaves the handle, so its interest mask and registered flag, as it was. -/
theorem C11_remove (c : Channel) :
    ((∃ v, c.remove = .error v) ↔ c.polling = false) ∧
    c.remove =
      (if c.polling then .ok (c, [LoopRequest.removeChannel c])
       else .error (Violation.assertion "polling_")) ∧
    (∀ r, c.remove = .ok r →
      r.2 = [LoopRequest.removeChannel c] ∧ r.1.events_ = c.events_ ∧
        r.1.polling = c.polling ∧ r.1 = c) := by
  unfold Channel.remove Channel.polling
  cases hp : c.polling_
  · refine ⟨⟨fun _ => rfl, fun _ => ⟨_, rfl⟩⟩, rfl, ?_⟩
    intro r hr
    simp at hr
  · refine ⟨⟨?_, ?_⟩, rfl, ?_⟩
    · rintro ⟨v, hv⟩
      simp at hv
    · intro h
      cases h
    · intro r hr
      simp only [if_true] at hr
      cases hr
      simp [hp]

/-! ## The next timeout: `TimerQueue::nextTimeout` -/

theorem toMillisecondCount_eq (ticksPerMs : Nat) (ticks : Int) :
    toMillisecondCount ticksPerMs ticks = truncTowardZero ticksPerMs ticks := by
  unfold toMillisecondCount truncTowardZero
  cases ticks with
  | ofNat m =>
    have h0 : (0 : Int) ≤ Int.ofNat m := Int.ofNat_nonneg m
    rw [if_pos h0]
    rfl
  | negSucc m =>
    have h0 : ¬ (0 : Int) ≤ Int.negSucc m := by
      intro h; cases h
    rw [if_neg h0]
    rfl

theorem Entry.lt_fst_le (a b : Entry) (h : Entry.lt a b) : a.1 ≤ b.1 := by
  unfold Entry.lt at h
  rcases h with h | h
  · exact le_of_lt h
  · exact le_of_eq h.1

theorem foldl_min_of_le (rest : List Entry) (m : Timestamp) (h : ∀ x ∈ rest, m ≤ x.1) :
    rest.foldl (fun m x => min m x.1) m = m := by
  induction rest with
  | nil => rfl
  | cons x xs ih =>
    rw [List.foldl_cons, min_eq_left (h x (List.mem_cons_self _ _))]
    exact ih (fun y hy => h y (List.mem_cons_of_mem _ hy))

theorem minTimestamp_of_ordered (e : Entry) (rest : TimerList)
    (h : TimerList.Ordered (e :: rest)) : minTimestamp (e :: rest) = some e.1 := by
  unfold TimerList.Ordered at h
  show some (rest.foldl (fun m x => min m x.1) e.1) = some e.1
  rw [foldl_min_of_le rest e.1 (fun x hx => Entry.lt_fst_le e x ((List.pairwise_cons.mp h).1 x hx))]

theorem wrapInt64_of_isInt64 (n : Int) (h : isInt64 n) : wrapInt64 n = n := by
  unfold isInt64 at h
  unfold wrapInt64
  omega

theorem truncTowardZero_neg (k : Nat) (d : Int) (hk : 0 < k) (hd : d + k ≤ 0) :
    truncTowardZero k d < 0 := by
  unfold truncTowardZero
  have hneg : ¬ (0 : Int) ≤ d := by omega
  rw [if_neg hneg]
  have hle : k ≤ (-d).toNat := by omega
  have hpos : 0 < (-d).toNat / k := Nat.div_pos hle hk
  omega

theorem truncTowardZero_zero (k : Nat) (d : Int) (hlo : -(k : Int) < d) (hhi : d < k) :
    truncTowardZero k d = 0 := by
  unfold truncTowardZero
  split
  · rw [Nat.div_eq_of_lt (by omega)]
    rfl
  · rw [Nat.div_eq_of_lt (by omega)]
    rfl

/-- C17, as stated, fails: with the single timer at the smallest 64 bit timestamp
and `now = 1000` (microsecond ticks) the timestamp lies more than a millisecond
before `now`, yet the subtraction overflows and `nextTimeout()` returns the
positive `9223372036854774`. -/
theorem C17_counterexample :
    (TimerQueue.mk 4 (Channel.new 4) [(-9223372036854775808, 7)]).timers_.Ordered ∧
    isInt64 (-9223372036854775808) ∧ isInt64 1000 ∧
    minTimestamp (TimerQueue.mk 4 (Channel.new 4) [(-9223372036854775808, 7)]).timers_
      = some (-9223372036854775808) ∧
    (-9223372036854775808 : Int) + (1000 : Nat) ≤ 1000 ∧
    (TimerQueue.mk 4 (Channel.new 4) [(-9223372036854775808, 7)]).nextTimeout 1000 1000
      = 9223372036854774 ∧
    ¬ (TimerQueue.mk 4 (Channel.new 4) [(-9223372036854775808, 7)]).nextTimeout 1000 1000 < 0 := by
  decide

/-- C17, amended: on a non-empty collection whose smallest expiry timestamp lies
at least one millisecond before `now`, and whose difference to `now` fits in 64
bits, `nextTimeout()` is strictly negative (it is not clamped at zero); and for
every time less than one millisecond away from that timestamp (the difference
fitting in 64 bits) the result is 0, the value returned for an empty collection. -/
theorem C17_nextTimeout_negative (tq : TimerQueue) (ticksPerMs : Nat) (now earliest : Timestamp)
    (hord : tq.timers_.Ordered) (hres : 0 < ticksPerMs)
    (hmin : minTimestamp tq.timers_ = some earliest)
    (hpast : earliest + ticksPerMs ≤ now)
    (hfit : isInt64 (earliest - now)) :
    tq.nextTimeout ticksPerMs now < 0 ∧
    tq.timers_ ≠ [] ∧
    (∀ t : Timestamp, earliest - ticksPerMs < t → t < earliest + ticksPerMs →
      isInt64 (earliest - t) →
      tq.nextTimeout ticksPerMs t = 0 ∧
      (TimerQueue.mk tq.timerfd_ tq.timerChannel_ []).nextTimeout ticksPerMs t = 0) := by
  cases hl : tq.timers_ with
  | nil => rw [hl] at hmin; cases hmin
  | cons e rest =>
    rw [hl] at hord hmin
    rw [minTimestamp_of_ordered e rest hord] at hmin
    have he : e.1 = earliest := Option.some.inj hmin
    have hnext : ∀ t, isInt64 (earliest - t) →
        tq.nextTimeout ticksPerMs t = truncTowardZero ticksPerMs (earliest - t) := by
      intro t ht
      unfold TimerQueue.nextTimeout
      rw [hl]
      show toMillisecondCount ticksPerMs (wrapInt64 (e.1 - t)) = _
      rw [toMillisecondCount_eq, he, wrapInt64_of_isInt64 _ ht]
    refine ⟨?_, by simp, ?_⟩
    · rw [hnext now hfit]
      exact truncTowardZero_neg ticksPerMs _ hres (by linarith)
    · intro t hlo hhi ht
      refine ⟨?_, rfl⟩
      rw [hnext t ht]
      exact truncTowardZero_zero ticksPerMs _ (by linarith) (by linarith)

theorem C17_nextTimeout_negative_witness :
    (TimerQueue.mk 4 (Channel.new 4) [(2500, 7), (9000, 1)]).timers_.Ordered ∧
    0 < 1000 ∧
    minTimestamp (TimerQueue.mk 4 (Channel.new 4) [(2500, 7), (9000, 1)]).timers_ = some 2500 ∧
    (2500 : Int) + (1000 : Nat) ≤ 3500 ∧
    isInt64 (2500 - 3500) ∧
    (TimerQueue.mk 4 (Channel.new 4) [(2500, 7), (9000, 1)]).nextTimeout 1000 3500 < 0 ∧
    (TimerQueue.mk 4 (Channel.new 4) [(2500, 7), (9000, 1)]).nextTimeout 1000 3499 = 0 := by
  have h := C17_nextTimeout_negative (TimerQueue.mk 4 (Channel.new 4) [(2500, 7), (9000, 1)])
    1000 3500 2500 (by decide) (by decide) (by decide) (by decide) (by decide)
  exact ⟨by decide, by decide, by decide, by decide, by decide, h.1,
    (h.2.2 3499 (by decide) (by decide) (by decide)).1⟩

/-! ## Expiry: `TimerQueue::getExpired` -/

theorem Entry.lt_irrefl (a : Entry) : ¬ Entry.lt a a := by
  obtain ⟨t, i⟩ := a
  unfold Entry.lt
  simp only [Timestamp, TimerPtr] at t i ⊢
  omega

theorem Entry.lt_trans (a b c : Entry) (hab : Entry.lt a b) (hbc : Entry.lt b c) :
    Entry.lt a c := by
  revert hab hbc
  obtain ⟨t1, i1⟩ := a
  obtain ⟨t2, i2⟩ := b
  obtain ⟨t3, i3⟩ := c
  unfold Entry.lt
  simp only [Timestamp, TimerPtr] at t1 i1 t2 i2 t3 i3 ⊢
  intro hab hbc
  omega

theorem Entry.lt_of_not_lt_of_ne (a b : Entry) (h : ¬ Entry.lt a b) (hne : a ≠ b) :
    Entry.lt b a := by
  have hne2 : a.1 ≠ b.1 ∨ a.2 ≠ b.2 := by
    by_contra hcon
    push_neg at hcon
    exact hne (Prod.ext hcon.1 hcon.2)
  revert h hne2
  obtain ⟨t1, i1⟩ := a
  obtain ⟨t2, i2⟩ := b
  unfold Entry.lt
  simp only [Timestamp, TimerPtr] at t1 i1 t2 i2 ⊢
  intro h hne2
  omega

theorem mem_insert (e x : Entry) (l : TimerList) :
    x ∈ TimerList.insert e l ↔ x = e ∨ x ∈ l := by
  induction l with
  | nil => simp [TimerList.insert]
  | cons y ys ih =>
    unfold TimerList.insert
    by_cases h1 : Entry.lt e y
    · simp [h1]
    · by_cases h2 : e = y
      · subst h2
        simp [h1]
      · simp only [h1, h2, if_false, List.mem_cons, ih]
        tauto

theorem insert_ordered (e : Entry) (l : TimerList) (h : l.Ordered) :
    (TimerList.insert e l).Ordered := by
  unfold TimerList.Ordered at *
  induction l with
  | nil => simp [TimerList.insert]
  | cons y ys ih =>
    unfold TimerList.insert
    obtain ⟨hy, hys⟩ := List.pairwise_cons.mp h
    by_cases h1 : Entry.lt e y
    · rw [if_pos h1]
      refine List.pairwise_cons.mpr ⟨?_, h⟩
      intro z hz
      rcases List.mem_cons.mp hz with hz | hz
      · rw [hz]; exact h1
      · exact Entry.lt_trans e y z h1 (hy z hz)
    · rw [if_neg h1]
      by_cases h2 : e = y
      · rw [if_pos h2]; exact h
      · rw [if_neg h2]
        refine List.pairwise_cons.mpr ⟨?_, ih hys⟩
        intro z hz
        rcases (mem_insert e z ys).mp hz with hz | hz
        · rw [hz]; exact Entry.lt_of_not_lt_of_ne e y h1 h2
        · exact hy z hz

theorem foldl_insert_spec (added : List Entry) (l : TimerList) (h : l.Ordered) :
    (added.foldl (fun l e => TimerList.insert e l) l).Ordered ∧
    ∀ x, x ∈ added.foldl (fun l e => TimerList.insert e l) l ↔ x ∈ added ∨ x ∈ l := by
  induction added generalizing l with
  | nil => simp [h]
  | cons e es ih =>
    rw [List.foldl_cons]
    obtain ⟨h1, h2⟩ := ih (TimerList.insert e l) (insert_ordered e l h)
    refine ⟨h1, ?_⟩
    intro x
    rw [h2, mem_insert, List.mem_cons]
    tauto

theorem ofAdded_spec (added : List Entry) :
    (TimerList.ofAdded added).Ordered ∧ ∀ x, x ∈ TimerList.ofAdded added ↔ x ∈ added := by
  obtain ⟨h1, h2⟩ := foldl_insert_spec added [] List.Pairwise.nil
  exact ⟨h1, fun x => by rw [TimerList.ofAdded, h2]; simp⟩

theorem getExpiredFrom_eq_filter (now : Timestamp) (l : TimerList) (h : l.Ordered) :
    getExpiredFrom now l =
      (l.filter (fun e => decide (e.1 ≤ now)), l.filter (fun e => decide (now < e.1))) := by
  unfold TimerList.Ordered at h
  induction l with
  | nil => rfl
  | cons e rest ih =>
    obtain ⟨he, hrest⟩ := List.pairwise_cons.mp h
    unfold getExpiredFrom
    by_cases hnow : e.1 ≤ now
    · have hnot : ¬ now < e.1 := not_lt.mpr hnow
      rw [if_pos hnow, ih hrest, List.filter_cons_of_pos (by simpa using hnow),
        List.filter_cons_of_neg (by simpa using hnot)]
    · have hlt : now < e.1 := lt_of_not_le hnow
      have hall : ∀ x ∈ rest, now < x.1 := fun x hx =>
        lt_of_lt_of_le hlt (Entry.lt_fst_le e x (he x hx))
      rw [if_neg hnow, List.filter_cons_of_neg (by simpa using hnow),
        List.filter_cons_of_pos (by simpa using hlt)]
      have h1 : rest.filter (fun e => decide (e.1 ≤ now)) = [] := by
        rw [List.filter_eq_nil_iff]
        intro x hx
        simp only [decide_eq_true_eq]
        exact not_le.mpr (hall x hx)
      have h2 : rest.filter (fun e => decide (now < e.1)) = rest := by
        rw [List.filter_eq_self]
        intro x hx
        simpa using hall x hx
      rw [h1, h2]

theorem ordered_filter (l : TimerList) (q : Entry → Bool) (h : l.Ordered) :
    TimerList.Ordered (l.filter q) := by
  unfold TimerList.Ordered at *
  exact List.Pairwise.filter q h

/-- C13: for every collection of scheduled timers (the entries `added`, inserted
in any order, timestamps equal or not) and every `now`, `getExpired(now)` returns
exactly the entries with timestamp `≤ now`, leaves exactly the others in the live
collection, and leaves them ordered by timestamp (and by identity within a
timestamp); two timers added with one timestamp and different identities are both
in the collection before, and are both returned or both kept. -/
theorem C13_getExpired (timerfd : Int) (timerChannel : Channel) (added : List Entry)
    (now : Timestamp) :
    (∀ e, e ∈ TimerList.ofAdded added ↔ e ∈ added) ∧
    ((TimerQueue.mk timerfd timerChannel (TimerList.ofAdded added)).getExpired now).1
      = (TimerList.ofAdded added).filter (fun e => decide (e.1 ≤ now)) ∧
    ((TimerQueue.mk timerfd timerChannel (TimerList.ofAdded added)).getExpired now).2
      = TimerQueue.mk timerfd timerChannel
          ((TimerList.ofAdded added).filter (fun e => decide (now < e.1))) ∧
    (∀ e, e ∈ ((TimerQueue.mk timerfd timerChannel (TimerList.ofAdded added)).getExpired now).1
      ↔ e ∈ added ∧ e.1 ≤ now) ∧
    (∀ e, e ∈ ((TimerQueue.mk timerfd timerChannel
        (TimerList.ofAdded added)).getExpired now).2.timers_ ↔ e ∈ added ∧ now < e.1) ∧
    ((TimerQueue.mk timerfd timerChannel (TimerList.ofAdded added)).getExpired now).2.timers_.Ordered ∧
    ((TimerQueue.mk timerfd timerChannel
        (TimerList.ofAdded added)).getExpired now).2.timers_.Pairwise (fun a b => a.1 ≤ b.1) ∧
    (∀ (t : Timestamp) (i j : TimerPtr), (t, i) ∈ added → (t, j) ∈ added →
      ((t, i) ∈ TimerList.ofAdded added ∧ (t, j) ∈ TimerList.ofAdded added) ∧
      (((t, i) ∈ ((TimerQueue.mk timerfd timerChannel
            (TimerList.ofAdded added)).getExpired now).1 ∧
          (t, j) ∈ ((TimerQueue.mk timerfd timerChannel
            (TimerList.ofAdded added)).getExpired now).1) ∨
        ((t, i) ∈ ((TimerQueue.mk timerfd timerChannel
            (TimerList.ofAdded added)).getExpired now).2.timers_ ∧
          (t, j) ∈ ((TimerQueue.mk timerfd timerChannel
            (TimerList.ofAdded added)).getExpired now).2.timers_))) := by
  obtain ⟨hord, hmem⟩ := ofAdded_spec added
  have hfilter := getExpiredFrom_eq_filter now (TimerList.ofAdded added) hord
  have h1 : ((TimerQueue.mk timerfd timerChannel (TimerList.ofAdded added)).getExpired now).1
      = (TimerList.ofAdded added).filter (fun e => decide (e.1 ≤ now)) := by
    simp only [TimerQueue.getExpired, hfilter]
  have h2 : ((TimerQueue.mk timerfd timerChannel (TimerList.ofAdded added)).getExpired now).2
      = TimerQueue.mk timerfd timerChannel
          ((TimerList.ofAdded added).filter (fun e => decide (now < e.1))) := by
    simp only [TimerQueue.getExpired, hfilter]
  have hexp : ∀ e, e ∈ ((TimerQueue.mk timerfd timerChannel
      (TimerList.ofAdded added)).getExpired now).1 ↔ e ∈ added ∧ e.1 ≤ now := by
    intro e
    rw [h1, List.mem_filter, hmem]
    simp
  have hlive : ∀ e, e ∈ ((TimerQueue.mk timerfd timerChannel
      (TimerList.ofAdded added)).getExpired now).2.timers_ ↔ e ∈ added ∧ now < e.1 := by
    intro e
    rw [h2, List.mem_filter, hmem]
    simp
  have hlord : ((TimerQueue.mk timerfd timerChannel
      (TimerList.ofAdded added)).getExpired now).2.timers_.Ordered := by
    rw [h2]
    exact ordered_filter _ _ hord
  refine ⟨hmem, h1, h2, hexp, hlive, hlord, ?_, ?_⟩
  · exact List.Pairwise.imp (fun {a b} hab => Entry.lt_fst_le a b hab) hlord
  · intro t i j hi hj
    refine ⟨⟨(hmem _).mpr hi, (hmem _).mpr hj⟩, ?_⟩
    by_cases hnow : t ≤ now
    · left
      exact ⟨(hexp _).mpr ⟨hi, hnow⟩, (hexp _).mpr ⟨hj, hnow⟩⟩
    · right
      exact ⟨(hlive _).mpr ⟨hi, lt_of_not_le hnow⟩, (hlive _).mpr ⟨hj, lt_of_not_le hnow⟩⟩

/-! ## Interest operations served by the poller -/

theorem updateChannel_ok_registered (poller : EPoller) (inLoopThread : Bool) (ctlRet : Int)
    (p : ChannelPtr) (c : Channel) (r : UpdateResult)
    (h : poller.updateChannel inLoopThread ctlRet p c = .ok r) :
    r.channel.polling = !r.channel.isNoneEvents ∧ r.channel.events_ = c.events_ := by
  unfold EPoller.updateChannel at h
  cases inLoopThread
  · simp at h
  · cases hp : c.polling_ <;> by_cases h0 : c.events_ = 0 <;>
      simp [Channel.polling, Channel.isNoneEvents, hp, h0] at h <;>
      subst h <;>
      simp [EPoller.updateChannelOp, Channel.setPollingState, Channel.polling,
        Channel.isNoneEvents, hp, h0]

theorem apply_requests (op : InterestOp) (c : Channel) :
    (op.apply c).2 = [LoopRequest.updateChannel (op.apply c).1] := by
  cases op <;> rfl

theorem callOp_eq (poller : EPoller) (p : ChannelPtr) (c : Channel) (call : InterestCall) :
    callOp poller p c call =
      match poller.updateChannel call.inLoopThread call.ctlRet p (call.op.apply c).1 with
      | .ok r => .ok r.channel
      | .error v => .error v := by
  unfold callOp
  rw [apply_requests]
  unfold forwardUpdates
  cases poller.updateChannel call.inLoopThread call.ctlRet p (call.op.apply c).1 with
  | ok r => rfl
  | error v => rfl

theorem callOp_ok_registered (poller : EPoller) (p : ChannelPtr) (c c1 : Channel)
    (call : InterestCall) (h : callOp poller p c call = .ok c1) :
    c1.polling = !c1.isNoneEvents := by
  rw [callOp_eq] at h
  cases hu : poller.updateChannel call.inLoopThread call.ctlRet p (call.op.apply c).1 with
  | error v => rw [hu] at h; cases h
  | ok r =>
    rw [hu] at h
    cases h
    exact (updateChannel_ok_registered poller _ _ p _ r hu).1

theorem runCalls_registered (poller : EPoller) (p : ChannelPtr) (calls : List InterestCall)
    (c : Channel) (states : List Channel) (h : runCalls poller p c calls = .ok states) :
    states.length = calls.length ∧ ∀ s ∈ states, s.polling = !s.isNoneEvents := by
  induction calls generalizing c states with
  | nil =>
    simp only [runCalls] at h
    cases h
    simp
  | cons call rest ih =>
    unfold runCalls at h
    cases hc : callOp poller p c call with
    | error v => rw [hc] at h; cases h
    | ok c1 =>
      rw [hc] at h
      simp only at h
      cases hr : runCalls poller p c1 rest with
      | error v => rw [hr] at h; cases h
      | ok cs =>
        rw [hr] at h
        cases h
        obtain ⟨hlen, hall⟩ := ih c1 cs hr
        refine ⟨by simp [hlen], ?_⟩
        intro s hs
        rcases List.mem_cons.mp hs with hs | hs
        · rw [hs]; exact callOp_ok_registered poller p c c1 call hc
        · exact hall s hs

/-- C14: with each synchronization request forwarded to `EPoller::updateChannel`,
for every sequence of interest operations on a freshly constructed handle that
runs without tripping an assertion, after each call the registered flag is the
negation of `isNoneEvents()`: the handle is registered exactly when its interest
mask is non-zero. -/
theorem C14_registered_iff_interested (poller : EPoller) (p : ChannelPtr) (fd : Int)
    (calls : List InterestCall) (states : List Channel)
    (hrun : runCalls poller p (Channel.new fd) calls = .ok states) :
    states.length = calls.length ∧
    ∀ s ∈ states, s.polling = !s.isNoneEvents ∧ (s.polling = true ↔ s.events_ ≠ 0) := by
  obtain ⟨hlen, hall⟩ := runCalls_registered poller p calls (Channel.new fd) states hrun
  refine ⟨hlen, fun s hs => ⟨hall s hs, ?_⟩⟩
  rw [hall s hs]
  simp [Channel.isNoneEvents]

theorem C14_registered_iff_interested_witness :
    runCalls (EPoller.mk 3 []) 7 (Channel.new 5)
      [InterestCall.mk InterestOp.enableRead true 0, InterestCall.mk InterestOp.enableWrite true 0,
       InterestCall.mk InterestOp.disableRead true (-1),
       InterestCall.mk InterestOp.disableWrite true 0,
       InterestCall.mk InterestOp.disableAll true 0]
      = .ok [{ Channel.new 5 with events_ := 3, polling_ := true },
             { Channel.new 5 with events_ := 7, polling_ := true },
             { Channel.new 5 with events_ := 6, polling_ := true },
             { Channel.new 5 with events_ := 2, polling_ := true },
             { Channel.new 5 with events_ := 0, polling_ := false }] ∧
    ∀ s ∈ [{ Channel.new 5 with events_ := 3, polling_ := true },
           { Channel.new 5 with events_ := 7, polling_ := true },
           { Channel.new 5 with events_ := 6, polling_ := true },
           { Channel.new 5 with events_ := 2, polling_ := true },
           { Channel.new 5 with events_ := 0, polling_ := false }],
      s.polling = !s.isNoneEvents ∧ (s.polling = true ↔ s.events_ ≠ 0) :=
  ⟨by decide,
   (C14_registered_iff_interested (EPoller.mk 3 []) 7 5
      [InterestCall.mk InterestOp.enableRead true 0, InterestCall.mk InterestOp.enableWrite true 0,
       InterestCall.mk InterestOp.disableRead true (-1),
       InterestCall.mk InterestOp.disableWrite true 0,
       InterestCall.mk InterestOp.disableAll true 0]
      _ (by decide)).2⟩

theorem updateChannel_nonempty (poller : EPoller) (ctlRet : Int) (p : ChannelPtr) (c : Channel)
    (h0 : c.events_ ≠ 0) :
    ∃ r, poller.updateChannel true ctlRet p c = .ok r ∧
      r.channel = { c with polling_ := true } ∧
      r.ctl.op = (if c.polling then EPOLL_CTL_MOD else EPOLL_CTL_ADD) := by
  unfold EPoller.updateChannel
  cases hp : c.polling_
  · refine ⟨_, by simp [Channel.polling, Channel.isNoneEvents, hp, h0]; rfl, ?_, ?_⟩
    · simp [EPoller.updateChannelOp, Channel.setPollingState]
    · simp [EPoller.updateChannelOp, Channel.polling, hp]
  · refine ⟨_, by simp [Channel.polling, Channel.isNoneEvents, hp, h0]; rfl, ?_, ?_⟩
    · simp only [EPoller.updateChannelOp]
      cases c
      simp only at hp
      simp [hp]
    · simp [EPoller.updateChannelOp, Channel.polling, hp]

theorem enableRead_disableRead_bits (e : Nat) :
    ((e ||| (EPOLLIN ||| EPOLLPRI)) &&& not32 EPOLLIN).testBit 1 = true ∧
    ((e ||| (EPOLLIN ||| EPOLLPRI)) &&& not32 EPOLLIN).testBit 0 = false := by
  have hm1 : (not32 EPOLLIN).testBit 1 = true := by decide
  have hm0 : (not32 EPOLLIN).testBit 0 = false := by decide
  have hr1 : (EPOLLIN ||| EPOLLPRI).testBit 1 = true := by decide
  constructor
  · rw [Nat.testBit_and, Nat.testBit_or, hm1, hr1]
    simp
  · rw [Nat.testBit_and, hm0]
    simp

/-- C15: after `enableRead()` followed by `disableRead()` the `EPOLLPRI` flag of the
interest mask is set, so `isReading()` is false and `isNoneEvents()` is false too;
with the synchronization requests served by `EPoller::updateChannel`, the handle
(whatever its mask and registration before, so also with an empty mask) is
registered after the first call and stays registered: the second synchronization
is `EPOLL_CTL_MOD`, not `EPOLL_CTL_DEL`. -/
theorem C15_enableRead_disableRead (poller : EPoller) (ret1 ret2 : Int) (p : ChannelPtr)
    (c : Channel) :
    flagSet c.enableRead.1.disableRead.1.events_ EPOLLPRI = true ∧
    c.enableRead.1.disableRead.1.isReading = false ∧
    c.enableRead.1.disableRead.1.isNoneEvents = false ∧
    ∃ r1 r2, poller.updateChannel true ret1 p c.enableRead.1 = .ok r1 ∧
      r1.channel.polling = true ∧
      poller.updateChannel true ret2 p r1.channel.disableRead.1 = .ok r2 ∧
      r2.ctl.op = EPOLL_CTL_MOD ∧
      r2.channel.polling = true ∧
      flagSet r2.channel.events_ EPOLLPRI = true ∧
      r2.channel.isReading = false ∧
      r2.channel.isNoneEvents = false ∧
      runCalls poller p c [InterestCall.mk InterestOp.enableRead true ret1,
        InterestCall.mk InterestOp.disableRead true ret2] = .ok [r1.channel, r2.channel] := by
  obtain ⟨hb1, hb0⟩ := enableRead_disableRead_bits c.events_
  have hpri : EPOLLPRI = 2 ^ 1 := rfl
  have hin : EPOLLIN = 2 ^ 0 := rfl
  have hev : ∀ d : Channel, d.events_ = c.events_ ||| (EPOLLIN ||| EPOLLPRI) →
      flagSet d.disableRead.1.events_ EPOLLPRI = true ∧ d.disableRead.1.isReading = false ∧
        d.disableRead.1.isNoneEvents = false ∧ d.disableRead.1.events_ ≠ 0 := by
    intro d hd
    have hval : d.disableRead.1.events_
        = (c.events_ ||| (EPOLLIN ||| EPOLLPRI)) &&& not32 EPOLLIN := by
      show d.events_ &&& not32 EPOLLIN = _
      rw [hd]
    have hne : d.disableRead.1.events_ ≠ 0 := by
      intro hz
      rw [hval] at hz
      rw [hz] at hb1
      simp at hb1
    refine ⟨?_, ?_, ?_, hne⟩
    · rw [hval, hpri, flagSet_two_pow]; exact hb1
    · unfold Channel.isReading
      rw [test_EPOLLIN, hval, hin, flagSet_two_pow]; exact hb0
    · unfold Channel.isNoneEvents
      simpa using hne
  have hne1 : c.enableRead.1.events_ ≠ 0 := by
    intro hz
    have hbit : (c.events_ ||| (EPOLLIN ||| EPOLLPRI)).testBit 1 = true := by
      rw [Nat.testBit_or]
      have : (EPOLLIN ||| EPOLLPRI).testBit 1 = true := by decide
      rw [this]; simp
    have hz2 : c.events_ ||| (EPOLLIN ||| EPOLLPRI) = 0 := hz
    rw [hz2] at hbit
    simp at hbit
  obtain ⟨r1, hu1, hc1, _⟩ := updateChannel_nonempty poller ret1 p c.enableRead.1 hne1
  have hr1ev : r1.channel.events_ = c.events_ ||| (EPOLLIN ||| EPOLLPRI) := by
    rw [hc1]; rfl
  have hr1pol : r1.channel.polling = true := by
    rw [hc1]; rfl
  obtain ⟨h1, h2, h3, h4⟩ := hev r1.channel hr1ev
  obtain ⟨r2, hu2, hc2, hop2⟩ := updateChannel_nonempty poller ret2 p r1.channel.disableRead.1 h4
  have hpol2 : r1.channel.disableRead.1.polling = true := hr1pol
  have hc2eq : r2.channel = r1.channel.disableRead.1 := by
    rw [hc2]
    have hp : r1.channel.disableRead.1.polling_ = true := hpol2
    cases hd : r1.channel.disableRead.1
    rw [hd] at hp
    simp only at hp
    simp [hp]
  refine ⟨(hev c.enableRead.1 rfl).1, (hev c.enableRead.1 rfl).2.1, (hev c.enableRead.1 rfl).2.2.1,
    r1, r2, hu1, hr1pol, hu2, ?_, ?_, ?_, ?_, ?_, ?_⟩
  · rw [hop2, hpol2]; rfl
  · rw [hc2eq]; exact hpol2
  · rw [hc2eq]; exact h1
  · rw [hc2eq]; exact h2
  · rw [hc2eq]; exact h3
  · have hcall1 : callOp poller p c (InterestCall.mk InterestOp.enableRead true ret1)
        = .ok r1.channel := by
      rw [callOp_eq]
      show (match poller.updateChannel true ret1 p c.enableRead.1 with
        | .ok r => Except.ok r.channel
        | .error v => Except.error v) = _
      rw [hu1]
    have hcall2 : callOp poller p r1.channel (InterestCall.mk InterestOp.disableRead true ret2)
        = .ok r2.channel := by
      rw [callOp_eq]
      show (match poller.updateChannel true ret2 p r1.channel.disableRead.1 with
        | .ok r => Except.ok r.channel
        | .error v => Except.error v) = _
      rw [hu2]
    simp only [runCalls, hcall1, hcall2]

/-- C16: with the synchronization request served by `EPoller::updateChannel`,
`disableAll()` completes only on a registered handle called on the loop thread, and
then leaves it not registered with an empty mask; so `remove()` right after it
fails `assert(polling_)`, and from no handle state does `disableAll(); remove();`
complete without a contract violation. -/
theorem C16_disableAll_then_remove (poller : EPoller) (inLoopThread : Bool) (ctlRet : Int)
    (p : ChannelPtr) (c : Channel) :
    callOp poller p c (InterestCall.mk InterestOp.disableAll inLoopThread ctlRet) =
      (if !inLoopThread then .error Violation.notInLoopThread
       else if c.polling then .ok { c with events_ := 0, polling_ := false }
       else .error (Violation.assertion "!channel->isNoneEvents()")) ∧
    (∀ c1, callOp poller p c (InterestCall.mk InterestOp.disableAll inLoopThread ctlRet) = .ok c1 →
      c1.polling = false ∧ c1.remove = .error (Violation.assertion "polling_")) ∧
    disableAllThenRemove poller inLoopThread ctlRet p c =
      .error (if !inLoopThread then Violation.notInLoopThread
              else if c.polling then Violation.assertion "polling_"
              else Violation.assertion "!channel->isNoneEvents()") ∧
    ¬ ∃ r, disableAllThenRemove poller inLoopThread ctlRet p c = .ok r := by
  have hcall : callOp poller p c (InterestCall.mk InterestOp.disableAll inLoopThread ctlRet) =
      (if !inLoopThread then .error Violation.notInLoopThread
       else if c.polling then .ok { c with events_ := 0, polling_ := false }
       else .error (Violation.assertion "!channel->isNoneEvents()")) := by
    rw [callOp_eq]
    show (match poller.updateChannel inLoopThread ctlRet p c.disableAll.1 with
      | .ok r => Except.ok r.channel
      | .error v => Except.error v) = _
    unfold EPoller.updateChannel
    cases inLoopThread
    · rfl
    · cases hp : c.polling_
      · simp [Channel.polling, Channel.isNoneEvents, Channel.disableAll, Channel.update, hp]
      · simp [Channel.polling, Channel.isNoneEvents, Channel.disableAll, Channel.update, hp,
          EPoller.updateChannelOp, Channel.setPollingState]
  have hseq : disableAllThenRemove poller inLoopThread ctlRet p c =
      .error (if !inLoopThread then Violation.notInLoopThread
              else if c.polling then Violation.assertion "polling_"
              else Violation.assertion "!channel->isNoneEvents()") := by
    unfold disableAllThenRemove
    rw [hcall]
    cases inLoopThread
    · rfl
    · cases hp : c.polling
      · simp
      · simp [Channel.remove]
  refine ⟨hcall, ?_, hseq, ?_⟩
  · intro c1 h1
    rw [hcall] at h1
    cases inLoopThread
    · simp at h1
    · cases hp : c.polling
      · simp [hp] at h1
      · simp [hp] at h1
        subst h1
        exact ⟨rfl, rfl⟩
  · rintro ⟨r, hr⟩
    rw [hseq] at hr
    cases hr

end net
